import Mathlib

/-!
Verification of django-elasticsearch-model-binder.

Shallow embedding of the core of the repository:
 * `convert_model_field_to_es_format` and the Python `strftime` directives it
   uses (`models.py`),
 * an explicit Elasticsearch engine state (indices, aliases) together with the
   client calls the repository performs, each call recorded as an event,
 * `bind_alias`, `generate_index`, `rebuild_es_index`, `save`, `delete`
   (`models.py`), `queryset_iterator`, `initialize_es_model_index`,
   `build_documents_from_queryset`, `build_document_from_model` (`utils.py`)
   and the queryset mixin `reindex_into_es` (`mixins.py`).

Python machine integers are unbounded, so `Nat`/`Int` model them directly.
Fallible Python code (raised exceptions) is modelled with `Except`.
-/

/-- A Python `datetime.datetime` value (the fields used by the `strftime`
directives appearing in the source). A `datetime.date` is embedded separately
with the time fields fixed to zero, matching Python's `date.strftime`. -/
structure PyDateTime where
  year : Nat
  month : Nat
  day : Nat
  hour : Nat
  minute : Nat
  second : Nat
  deriving DecidableEq, Repr

/-- Zero-padded two digit rendering, as Python `strftime` pads `%d`, `%m`,
`%M`, `%H`, `%S`. -/
def pad2 (n : Nat) : String :=
  if n < 10 then "0" ++ toString n else toString n

/-- Zero-padded four digit rendering for `%Y`. -/
def pad4 (n : Nat) : String :=
  if n < 10 then "000" ++ toString n
  else if n < 100 then "00" ++ toString n
  else if n < 1000 then "0" ++ toString n
  else toString n

/-- Python `strftime` over the directives relevant to this repository:
`%d` day, `%m` month, `%M` minute, `%Y` year, `%H` hour, `%S` second; any
other character is copied verbatim. -/
def strftime (t : PyDateTime) : List Char → String
  | [] => ""
  | '%' :: c :: rest =>
    (if c = 'd' then pad2 t.day
     else if c = 'm' then pad2 t.month
     else if c = 'M' then pad2 t.minute
     else if c = 'Y' then pad4 t.year
     else if c = 'H' then pad2 t.hour
     else if c = 'S' then pad2 t.second
     else String.mk ['%', c]) ++ strftime t rest
  | c :: rest => String.mk [c] ++ strftime t rest

/-- A Python value held in a model field, as discriminated by
`convert_model_field_to_es_format` (`models.py` lines 53-72): a foreign
`Model` instance, a `datetime`, a `date`, an `int`, a string, or `None`.
(The `float` branch of the source behaves exactly like the `int` branch and
floating point is not modelled.) -/
inductive PyValue where
  | modelRef (pk : Nat)
  | datetime (t : PyDateTime)
  | dateOnly (year month day : Nat)
  | intv (n : Int)
  | strv (s : String)
  | noneV
  deriving DecidableEq, Repr

/-- A scalar stored in an Elasticsearch document. -/
inductive ESValue where
  | num (n : Int)
  | str (s : String)
  deriving DecidableEq, Repr

/-- The `strftime` format string used by the source:
`value.strftime('%d-%M-%Y %H:%M:%S')`. -/
def es_datetime_format : List Char := "%d-%M-%Y %H:%M:%S".data

/-- `ESBoundModel.convert_model_field_to_es_format` (`models.py` lines 53-72):
a `Model` becomes its pk, a `datetime`/`date` is formatted with
`'%d-%M-%Y %H:%M:%S'`, an `int` passes through, everything else is `str()`-ed
(Python's `str(None)` is the string `"None"`). -/
def convert_model_field_to_es_format : PyValue → ESValue
  | .modelRef pk => .num pk
  | .datetime t => .str (strftime t es_datetime_format)
  | .dateOnly y m d => .str (strftime ⟨y, m, d, 0, 0, 0⟩ es_datetime_format)
  | .intv n => .num n
  | .strv s => .str s
  | .noneV => .str "None"

/-- An Elasticsearch document body: field name to scalar value. -/
def SearchDoc := List (String × ESValue)

instance : DecidableEq SearchDoc :=
  inferInstanceAs (DecidableEq (List (String × ESValue)))

/-- Insert-or-replace in an association list, keeping the position of an
existing key: the semantics of a Python dict assignment `d[k] = v`. -/
def assocUpsert {α β : Type} [DecidableEq α] : List (α × β) → α → β → List (α × β)
  | [], k, v => [(k, v)]
  | (k', v') :: rest, k, v =>
    if k' = k then (k, v) :: rest else (k', v') :: assocUpsert rest k v

/-- One entry of an `update_aliases` actions body (`models.py` lines 176-180). -/
inductive AliasAction where
  | add (index : String) (aliasName : String)
  | remove (index : String) (aliasName : String)
  deriving DecidableEq, Repr

/-- One network call made by the repository against the Elasticsearch client.
Reads (`exists_alias`, `get_alias`, `get`) and writes are both recorded. -/
inductive ESEvent where
  | createIndex (index : String)
  | updateAliases (actions : List AliasAction)
  | existsAlias (aliasName : String)
  | getAliasEv (aliasName : String)
  | indexDoc (target : String) (id : Nat)
  | bulkIndex (target : String) (ids : List Nat)
  | deleteDoc (target : String) (id : Nat)
  | deleteIndex (index : String)
  deriving DecidableEq, Repr

/-- Event classifying: does the event mutate alias bindings? -/
def ESEvent.isAliasMutation : ESEvent → Bool
  | .updateAliases _ => true
  | _ => false

/-- Event classifying: does the event create a physical index? -/
def ESEvent.isCreateIndex : ESEvent → Bool
  | .createIndex _ => true
  | _ => false

/-- Event classifying: is the event a bulk write of documents? -/
def ESEvent.isBulkIndex : ESEvent → Bool
  | .bulkIndex _ _ => true
  | _ => false

/-- Errors surfaced by the Elasticsearch client: the distinguished
`NotFoundError` of the `elasticsearch` package, versus any other request
failure. -/
inductive EsError where
  | notFound
  | badRequest
  deriving DecidableEq, Repr

/-- The state of the Elasticsearch cluster as this system observes it:
existing physical indices with their documents (id to body), and alias
bindings (alias name to the physical indices it points at). -/
structure ESState where
  indices : String → Option (List (Nat × SearchDoc))
  aliases : String → Option (List String)

/-- `indices.exists_alias(name=a)`. -/
def es_exists_alias (st : ESState) (a : String) : Bool × List ESEvent :=
  ((st.aliases a).isSome, [ESEvent.existsAlias a])

/-- `indices.get_alias(name=a)`: the bound index names, or `NotFoundError`
when the alias does not exist. -/
def es_get_alias (st : ESState) (a : String) :
    Except EsError (List String) × List ESEvent :=
  (match st.aliases a with
   | some l => Except.ok l
   | none => Except.error EsError.notFound,
   [ESEvent.getAliasEv a])

/-- Apply one alias action, as the engine does inside a single
`update_aliases` request: `remove` drops the index from the alias (the alias
disappears when its last index is removed), `add` binds the alias to the
index. -/
def applyAliasAction (al : String → Option (List String)) :
    AliasAction → (String → Option (List String))
  | .remove i a => fun b =>
    if b = a then
      match al a with
      | none => none
      | some l =>
        let l' := l.filter (fun j => j ≠ i)
        if l' = [] then none else some l'
    else al b
  | .add i a => fun b =>
    if b = a then
      match al a with
      | none => some [i]
      | some l => if i ∈ l then some l else some (l ++ [i])
    else al b

/-- `indices.update_aliases(body={'actions': acts})`: one atomic request, the
actions applied in order. -/
def es_update_aliases (st : ESState) (acts : List AliasAction) :
    ESState × List ESEvent :=
  (ESState.mk st.indices (acts.foldl applyAliasAction st.aliases),
   [ESEvent.updateAliases acts])

/-- `indices.create(index=i, body=...)` (document mapping bodies are not
modelled; a fresh index starts empty). -/
def es_indices_create (st : ESState) (i : String) : ESState × List ESEvent :=
  (ESState.mk (fun n => if n = i then some [] else st.indices n) st.aliases,
   [ESEvent.createIndex i])

/-- Resolve the name a write is addressed to: an alias bound to exactly one
index resolves to that index, an alias bound to several indices rejects the
write, and a name that is no alias addresses the physical index of that name
(auto-created on first write, as Elasticsearch does). -/
def resolve_write_target (st : ESState) (target : String) :
    Except EsError String :=
  match st.aliases target with
  | some [i] => Except.ok i
  | some _ => Except.error EsError.badRequest
  | none => Except.ok target

/-- Single-document upsert `client.index(id=id, index=target, body=body)`. -/
def es_index_doc (st : ESState) (target : String) (id : Nat) (body : SearchDoc) :
    Except EsError Unit × ESState × List ESEvent :=
  match resolve_write_target st target with
  | Except.error e => (Except.error e, st, [ESEvent.indexDoc target id])
  | Except.ok i =>
    let docs := (st.indices i).getD []
    (Except.ok (),
     ESState.mk (fun n => if n = i then some (assocUpsert docs id body) else st.indices n)
       st.aliases,
     [ESEvent.indexDoc target id])

/-- One entry handed to `elasticsearch.helpers.bulk`: an `_id` and an
optional `_source` body (the stale queryset mixin omits `_source` when `pk`
is among the cached fields). -/
structure BulkEntry where
  id : Nat
  src : Option SearchDoc
  deriving DecidableEq

/-- `elasticsearch.helpers.bulk(client, entries, index=target)`: upsert every
entry into the resolved index in one request. -/
def es_bulk (st : ESState) (target : String) (entries : List BulkEntry) :
    Except EsError Unit × ESState × List ESEvent :=
  match resolve_write_target st target with
  | Except.error e => (Except.error e, st, [ESEvent.bulkIndex target (entries.map BulkEntry.id)])
  | Except.ok i =>
    let docs := entries.foldl (fun acc e => assocUpsert acc e.id (e.src.getD [])) ((st.indices i).getD [])
    (Except.ok (),
     ESState.mk (fun n => if n = i then some docs else st.indices n) st.aliases,
     [ESEvent.bulkIndex target (entries.map BulkEntry.id)])

/-- `client.delete(index=target, id=id)`: raises `NotFoundError` when the
document is absent. -/
def es_delete_doc (st : ESState) (target : String) (id : Nat) :
    Except EsError Unit × ESState × List ESEvent :=
  match resolve_write_target st target with
  | Except.error e => (Except.error e, st, [ESEvent.deleteDoc target id])
  | Except.ok i =>
    match st.indices i with
    | none => (Except.error EsError.notFound, st, [ESEvent.deleteDoc target id])
    | some docs =>
      if docs.any (fun p => p.fst = id) then
        (Except.ok (),
         ESState.mk (fun n => if n = i then some (docs.filter (fun p => p.fst ≠ id)) else st.indices n)
           st.aliases,
         [ESEvent.deleteDoc target id])
      else
        (Except.error EsError.notFound, st, [ESEvent.deleteDoc target id])

/-- `indices.delete(i)`: removes the physical index and any alias binding
that pointed at it. -/
def es_delete_index (st : ESState) (i : String) : ESState × List ESEvent :=
  (ESState.mk (fun n => if n = i then none else st.indices n)
    (fun a =>
      match st.aliases a with
      | none => none
      | some l =>
        let l' := l.filter (fun j => j ≠ i)
        if l' = [] then none else some l'),
   [ESEvent.deleteIndex i])

/-- A pluggable extra field (`ExtraModelFieldBase` subclass, `utils.py` lines
166-195): a declared `field_name` and the bulk `custom_model_field_map`
mapping a list of model pks to a value per pk (modelled as an association
list, a missing key surfacing as Python's `KeyError` at the access site). -/
structure ProviderCfg where
  field_name : String
  compute : List Nat → List (Nat × ESValue)

/-- The attributes the stale queryset mixin (`mixins.py`) expects on the
model class: `es_cached_fields`, `get_index_name()` and `get_es_client()`.
An `ESBoundModel` subclass (`models.py`) defines none of them, which the
embedding records as this whole group being absent (`none`). -/
structure LegacyMixinAttrs where
  es_cached_fields : List String
  index_name : String

/-- The per-model-class configuration an `ESBoundModel` subclass carries:
its base index name, the declared cached fields, the declared extra-field
providers, the names of its concrete schema fields (`_meta.fields`), the
read/write alias postfix strings, and the optional legacy attribute group. -/
structure ModelCfg where
  index_base_name : String
  es_cached_model_fields : List String
  es_cached_extra_fields : List ProviderCfg
  model_fields : List String
  read_alias_suffix : String
  write_alias_suffix : String
  legacy : Option LegacyMixinAttrs

/-- `ESBoundModel.get_read_alias_name` (`models.py` lines 130-140):
base name, a dash, and `es_index_alias_read_postfix` (default `'read'`). -/
def get_read_alias_name (cfg : ModelCfg) : String :=
  cfg.index_base_name ++ "-" ++ cfg.read_alias_suffix

/-- `ESBoundModel.get_write_alias_name` (`models.py` lines 142-152). -/
def get_write_alias_name (cfg : ModelCfg) : String :=
  cfg.index_base_name ++ "-" ++ cfg.write_alias_suffix

/-- `get_index_names_from_alias` (`utils.py` lines 153-163): the keys of
`indices.get_alias(name=alias)`. -/
def get_index_names_from_alias (st : ESState) (a : String) :
    Except EsError (List String) × List ESEvent :=
  es_get_alias st a

/-- `ESBoundModel.bind_alias` (`models.py` lines 166-182): collect the
indices currently bound to the alias (when it exists), then issue one
`update_aliases` request holding a remove action per old binding plus the
single add action. -/
def bind_alias (st : ESState) (index : String) (a : String) :
    ESState × List ESEvent :=
  let (exists?, evs1) := es_exists_alias st a
  let (old_indicy_names, evs2) :=
    if exists? then
      match es_get_alias st a with
      | (Except.ok l, evs) => (l, evs)
      | (Except.error _, evs) => ([], evs)
    else ([], [])
  let alias_updates :=
    old_indicy_names.map (fun indicy => AliasAction.remove indicy a)
      ++ [AliasAction.add index a]
  let (st', evs3) := es_update_aliases st alias_updates
  (st', evs1 ++ evs2 ++ evs3)

/-- `ESBoundModel.generate_index` (`models.py` lines 154-164): create a fresh
physical index named base name plus a random suffix; the fresh suffixed name
is passed in explicitly in place of `uuid4().hex`. -/
def generate_index (st : ESState) (freshName : String) : ESState × List ESEvent :=
  es_indices_create st freshName

/-- `initialize_es_model_index` (`utils.py` lines 49-67): look the write
alias up; on the distinct `NotFoundError` create one fresh index and bind the
write alias then the read alias to it; when the lookup succeeds do nothing;
any other lookup failure propagates uncaught. -/
def initialize_es_model_index (cfg : ModelCfg) (freshName : String) (st : ESState) :
    Except EsError (ESState × List ESEvent) :=
  match get_index_names_from_alias st (get_write_alias_name cfg) with
  | (Except.ok _, evs) => Except.ok (st, evs)
  | (Except.error EsError.notFound, evs) =>
    let (st1, evs1) := generate_index st freshName
    let (st2, evs2) := bind_alias st1 freshName (get_write_alias_name cfg)
    let (st3, evs3) := bind_alias st2 freshName (get_read_alias_name cfg)
    Except.ok (st3, evs ++ evs1 ++ evs2 ++ evs3)
  | (Except.error e, _) => Except.error e

/-- Insert a key into a list kept in ascending order. -/
def insertSorted (n : Nat) : List Nat → List Nat
  | [] => [n]
  | m :: rest => if n ≤ m then n :: m :: rest else m :: insertSorted n rest

/-- The embedding of `order_by('pk')`: the table's primary keys in ascending
order (insertion sort, chosen because it evaluates structurally). -/
def order_by_pk (l : List Nat) : List Nat := l.foldr insertSorted []

/-- The recursion behind `queryset_iterator` (`utils.py` lines 29-46) over a
static table: while `pk < last_pk`, fetch the next `chunk_size` primary keys
strictly greater than the cursor in ascending order, yield them, and advance
the cursor to the last key of the fetched chunk. The loop is embedded with
fuel; `none` means the fuel ran out, and an empty chunk (impossible over a
static table while `pk < last_pk`) is where the source would raise on
`queryset_chunk[len(queryset_chunk) - 1]`, ending the sequence. -/
def queryset_iterator_go (rows : List Nat) (chunk_size : Nat) (last_pk : Nat) :
    Nat → Nat → Option (List (List Nat))
  | 0, _ => none
  | fuel + 1, pk =>
    if pk < last_pk then
      let chunk := (rows.filter (fun k => pk < k)).take chunk_size
      match chunk.getLast? with
      | none => some []
      | some newPk =>
        (queryset_iterator_go rows chunk_size last_pk fuel newPk).map (chunk :: ·)
    else some []

/-- `queryset_iterator(queryset, chunk_size=1000)` (`utils.py` lines 29-46):
capture the greatest primary key once, as `order_by('-pk')[:1].get().pk` does
— the last element of the ascending sort; when the table is empty
(`ObjectDoesNotExist`) the generator yields nothing. Then loop from cursor 0
over the pk-ordered table. -/
def queryset_iterator (rows : List Nat) (chunk_size : Nat) :
    Option (List (List Nat)) :=
  match (order_by_pk rows).getLast? with
  | none => some []
  | some last_pk =>
    queryset_iterator_go (order_by_pk rows) chunk_size last_pk (last_pk + 1) 0

/-- The Python exceptions this repository raises or meets:
`NominatedFieldDoesNotExistForESIndexingException` (fieldNotFound),
`KeyError`, `AttributeError`, `IndexError`,
`UnableToSaveModelToElasticSearch`, `UnableToDeleteModelFromElasticSearch`,
`UnableToBulkIndexModelsToElasticSearch`, a propagated client error, and the
embedding-only marker for exhausted loop fuel. -/
inductive PyError where
  | fieldNotFound
  | keyError
  | attributeError
  | indexError
  | unableToSave
  | unableToDelete
  | unableToBulkIndex
  | esError (e : EsError)
  | fuelExhausted
  deriving DecidableEq, Repr

/-- A relational row of the bound model: its primary key and its concrete
schema attribute values. -/
structure Row where
  pk : Nat
  fields : List (String × PyValue)

/-- The value `queryset.values(...)` projects for one requested field name of
one row: the primary key for `'pk'`, otherwise the stored attribute (a
missing nullable column is Python `None`). -/
def values_field (r : Row) (f : String) : PyValue :=
  if f = "pk" then PyValue.intv r.pk else (r.fields.lookup f).getD PyValue.noneV

/-- One `queryset.values(*field_list)` result dict for one row. -/
def queryset_values_row (field_list : List String) (r : Row) :
    List (String × PyValue) :=
  field_list.map (fun f => (f, values_field r f))

/-- The cached-field loop of `build_document_from_model` (`utils.py` lines
125-139): a declared field absent from the schema (and not `'pk'`) raises
`NominatedFieldDoesNotExistForESIndexingException`; otherwise the converted
value is stored under the field name. -/
def build_document_fields (cfg : ModelCfg) (r : Row) :
    List String → SearchDoc → Except PyError SearchDoc
  | [], doc => Except.ok doc
  | f :: rest, doc =>
    if f ∈ cfg.model_fields ∨ f = "pk" then
      build_document_fields cfg r rest
        (assocUpsert doc f (convert_model_field_to_es_format (values_field r f)))
    else Except.error PyError.fieldNotFound

/-- The extra-field loop of `build_document_from_model` (`utils.py` lines
141-148): each provider's bulk map is invoked with the singleton pk list and
the pk's entry extracted (`KeyError` when the provider omitted it). -/
def build_document_extras (r : Row) :
    List ProviderCfg → SearchDoc → Except PyError SearchDoc
  | [], doc => Except.ok doc
  | p :: rest, doc =>
    match (p.compute [r.pk]).lookup r.pk with
    | none => Except.error PyError.keyError
    | some v => build_document_extras r rest (assocUpsert doc p.field_name v)

/-- `build_document_from_model(model)` (`utils.py` lines 117-150). -/
def build_document_from_model (cfg : ModelCfg) (r : Row) :
    Except PyError SearchDoc :=
  match build_document_fields cfg r cfg.es_cached_model_fields [] with
  | Except.error e => Except.error e
  | Except.ok doc => build_document_extras r cfg.es_cached_extra_fields doc

/-- The initial-documents pass of `build_documents_from_queryset` (`utils.py`
lines 89-99): one dict entry per values row keyed by its pk (a repeated pk
overwrites, as a Python dict does), whose `_source` maps every projected
field to its converted value. -/
def build_documents_base (field_list : List String) (rows : List Row) :
    List (Nat × SearchDoc) :=
  let queryset_values := rows.map (fun r => (r.pk, queryset_values_row field_list r))
  let documents := queryset_values.foldl
    (fun acc mv => assocUpsert acc mv.fst []) []
  queryset_values.foldl
    (fun acc mv => assocUpsert acc mv.fst
      (mv.snd.foldl (fun d kv => assocUpsert d kv.fst (convert_model_field_to_es_format kv.snd)) []))
    documents

/-- One pass of the extra-field loop of `build_documents_from_queryset`
(`utils.py` lines 102-112) for one provider: call its bulk map once with the
whole key set of `documents`, then store the returned value for every key
(`KeyError` when the provider omitted a requested key). -/
def applyProvider (p : ProviderCfg) (vals : List (Nat × ESValue)) :
    List (Nat × SearchDoc) → Except PyError (List (Nat × SearchDoc))
  | [] => Except.ok []
  | (pk, doc) :: rest =>
    match vals.lookup pk with
    | none => Except.error PyError.keyError
    | some v =>
      match applyProvider p vals rest with
      | Except.error e => Except.error e
      | Except.ok rest' => Except.ok ((pk, assocUpsert doc p.field_name v) :: rest')

/-- The extra-field loop of `build_documents_from_queryset` over all declared
providers, recording per provider the key set its bulk map was called with. -/
def applyProviders :
    List ProviderCfg → List (Nat × SearchDoc) →
    Except PyError (List (Nat × SearchDoc)) × List (String × List Nat)
  | [], documents => (Except.ok documents, [])
  | p :: rest, documents =>
    let key_set := documents.map Prod.fst
    let vals := p.compute key_set
    match applyProvider p vals documents with
    | Except.error e => (Except.error e, [(p.field_name, key_set)])
    | Except.ok documents' =>
      let (res, calls) := applyProviders rest documents'
      (res, (p.field_name, key_set) :: calls)

/-- `build_documents_from_queryset(queryset)` (`utils.py` lines 70-114).
`field_list` aliases the class attribute `es_cached_model_fields`, and the
`'pk'` append mutates that class-level list in place, so the possibly-grown
list is returned alongside the result; the third component records the
provider bulk calls. A declared field not on the model raises `FieldError`
inside `queryset.values`, re-raised as
`NominatedFieldDoesNotExistForESIndexingException`. -/
def build_documents_from_queryset (cfg : ModelCfg) (rows : List Row) :
    Except PyError (List (Nat × SearchDoc)) × List String × List (String × List Nat) :=
  let field_list :=
    if "pk" ∈ cfg.es_cached_model_fields then cfg.es_cached_model_fields
    else cfg.es_cached_model_fields ++ ["pk"]
  if ∀ f ∈ field_list, f ∈ cfg.model_fields ∨ f = "pk" then
    let documents := build_documents_base field_list rows
    let (res, calls) := applyProviders cfg.es_cached_extra_fields documents
    (res, field_list, calls)
  else (Except.error PyError.fieldNotFound, field_list, [])

/-- `ESBoundModel.save` (`models.py` lines 74-94): the relational write runs
first; then, inside one `try`, the document is built and upserted through the
write alias; any exception there — including the builder's own
`NominatedFieldDoesNotExistForESIndexingException`, raised while the `body=`
argument is evaluated, before the client request is sent — is re-raised as
`UnableToSaveModelToElasticSearch`. Returns (outcome, new table, new engine
state, engine calls made). -/
def ESBoundModel_save (cfg : ModelCfg) (r : Row) (db : List Row) (st : ESState) :
    Except PyError Unit × List Row × ESState × List ESEvent :=
  let db' :=
    if db.any (fun q => q.pk = r.pk) then db.map (fun q => if q.pk = r.pk then r else q)
    else db ++ [r]
  match build_document_from_model cfg r with
  | Except.error _ => (Except.error PyError.unableToSave, db', st, [])
  | Except.ok body =>
    match es_index_doc st (get_write_alias_name cfg) r.pk body with
    | (Except.ok _, st', evs) => (Except.ok (), db', st', evs)
    | (Except.error _, st', evs) => (Except.error PyError.unableToSave, db', st', evs)

/-- `ESBoundModel.delete` (`models.py` lines 96-119): the primary key is
cached first (`author_document_id`), the relational delete runs, then the
document is deleted from the write alias by the cached key; any exception
from the client — `NotFoundError` included, since the handler is
`except Exception` — is re-raised as
`UnableToDeleteModelFromElasticSearch`. -/
def ESBoundModel_delete (cfg : ModelCfg) (r : Row) (db : List Row) (st : ESState) :
    Except PyError Unit × List Row × ESState × List ESEvent :=
  let author_document_id := r.pk
  let db' := db.filter (fun q => q.pk ≠ r.pk)
  match es_delete_doc st (get_write_alias_name cfg) author_document_id with
  | (Except.ok _, st', evs) => (Except.ok (), db', st', evs)
  | (Except.error _, st', evs) => (Except.error PyError.unableToDelete, db', st', evs)

/-- The JSON rendering the `elasticsearch` client applies to raw Python
values handed to `helpers.bulk` (the stale queryset mixin ships values
without converting them; the client serializes datetimes in ISO form). Only
reachable through the legacy attribute group. -/
def clientSerialize : PyValue → ESValue
  | .modelRef pk => .num pk
  | .datetime t =>
    .str (pad4 t.year ++ "-" ++ pad2 t.month ++ "-" ++ pad2 t.day ++ "T"
      ++ pad2 t.hour ++ ":" ++ pad2 t.minute ++ ":" ++ pad2 t.second)
  | .dateOnly y m d => .str (pad4 y ++ "-" ++ pad2 m ++ "-" ++ pad2 d)
  | .intv n => .num n
  | .strv s => .str s
  | .noneV => .str "None"

/-- `ESQuerySetMixin.reindex_into_es` (`mixins.py` lines 251-273), the stale
queryset mixin shipped in this tree. It reads `self.model.es_cached_fields`,
`self.model.get_index_name()` and `self.model.get_es_client()` — attributes
an `ESBoundModel` subclass (`models.py`) does not define, so when the legacy
attribute group is absent the first access raises `AttributeError` (outside
the `try`, hence propagated raw). With the legacy attributes present it
projects `set(['pk', *es_cached_fields])`, builds `{'_id': pk}` entries whose
`_source` is the raw values dict (omitted entirely when `'pk'` is among the
cached fields), and bulk-writes them to `get_index_name()` — the plain index
name, not the write alias. -/
def reindex_into_es (cfg : ModelCfg) (rows : List Row) (st : ESState) :
    Except PyError Unit × ESState × List ESEvent :=
  match cfg.legacy with
  | none => (Except.error PyError.attributeError, st, [])
  | some leg =>
    let field_list := ("pk" :: leg.es_cached_fields).dedup
    let queryset_values := rows.map (fun r => (r.pk, queryset_values_row field_list r))
    let documents := queryset_values.map (fun pv =>
      BulkEntry.mk pv.fst
        (if "pk" ∈ leg.es_cached_fields then none
         else some (pv.snd.map (fun kv => (kv.fst, clientSerialize kv.snd)))))
    match es_bulk st leg.index_name documents with
    | (Except.ok _, st', evs) => (Except.ok (), st', evs)
    | (Except.error _, st', evs) => (Except.error PyError.unableToBulkIndex, st', evs)

/-- The `for qs_chunk in chunked_qs_generator` loop of `rebuild_es_index`
(`models.py` lines 204-205): each chunk is re-fetched from the table and
handed to `reindex_into_es`; an exception aborts the loop and propagates. -/
def rebuild_loop (cfg : ModelCfg) (db : List Row) :
    ESState → List (List Nat) → Except PyError Unit × ESState × List ESEvent
  | st, [] => (Except.ok (), st, [])
  | st, chunk :: rest =>
    let chunkRows := db.filter (fun r => r.pk ∈ chunk)
    match reindex_into_es cfg chunkRows st with
    | (Except.error e, st', evs) => (Except.error e, st', evs)
    | (Except.ok _, st', evs) =>
      let (res, st'', evs') := rebuild_loop cfg db st' rest
      (res, st'', evs ++ evs')

/-- `ESBoundModel.rebuild_es_index` (`models.py` lines 184-210): capture the
index behind the read alias, create a fresh index (`freshName` standing for
the `uuid4().hex` suffixed name), bind the write alias to it, push every
chunk of the table through `reindex_into_es`, bind the read alias to the new
index, and finally drop the captured old index when requested. -/
def rebuild_es_index (cfg : ModelCfg) (freshName : String) (db : List Row)
    (st : ESState) (drop_old_index : Bool) :
    Except PyError Unit × ESState × List ESEvent :=
  match get_index_names_from_alias st (get_read_alias_name cfg) with
  | (Except.error e, evs0) => (Except.error (PyError.esError e), st, evs0)
  | (Except.ok names, evs0) =>
    match names.head? with
    | none => (Except.error PyError.indexError, st, evs0)
    | some old_indicy =>
      let (st1, evs1) := generate_index st freshName
      let (st2, evs2) := bind_alias st1 freshName (get_write_alias_name cfg)
      match queryset_iterator (db.map Row.pk) 1000 with
      | none => (Except.error PyError.fuelExhausted, st2, evs0 ++ evs1 ++ evs2)
      | some chunks =>
        match rebuild_loop cfg db st2 chunks with
        | (Except.error e, st3, evs3) =>
          (Except.error e, st3, evs0 ++ evs1 ++ evs2 ++ evs3)
        | (Except.ok _, st3, evs3) =>
          let (st4, evs4) := bind_alias st3 freshName (get_read_alias_name cfg)
          if drop_old_index then
            let (st5, evs5) := es_delete_index st4 old_indicy
            (Except.ok (), st5, evs0 ++ evs1 ++ evs2 ++ evs3 ++ evs4 ++ evs5)
          else (Except.ok (), st4, evs0 ++ evs1 ++ evs2 ++ evs3 ++ evs4)

/-- Outcome of a chunked scan over a table that may change between fetches:
either the loop condition ended the scan, or a fetch came back empty and the
source's `queryset_chunk[len(queryset_chunk) - 1]` raised; both carry the
batches yielded up to that point. -/
inductive ScanOutcome where
  | done (batches : List (List Nat))
  | crashed (batches : List (List Nat))
  deriving DecidableEq, Repr

/-- Prepend a yielded batch to a scan outcome. -/
def ScanOutcome.consBatch (b : List Nat) : ScanOutcome → ScanOutcome
  | .done bs => .done (b :: bs)
  | .crashed bs => .crashed (b :: bs)

/-- The batches of a scan outcome. -/
def ScanOutcome.batches : ScanOutcome → List (List Nat)
  | .done bs => bs
  | .crashed bs => bs

/-- `queryset_iterator` over a table re-read on every fetch: `tables i` is
the table contents at the i-th fetch, so rows deleted or inserted between
fetches are visible. The maximum key is the one captured before the loop;
the cursor always advances to the last key of the batch the fetch actually
returned. `none` means the fuel ran out. -/
def scan_dynamic_go (tables : Nat → List Nat) (chunk_size last_pk : Nat) :
    Nat → Nat → Nat → Option ScanOutcome
  | 0, _, _ => none
  | fuel + 1, i, pk =>
    if pk < last_pk then
      let chunk := ((tables i).filter (fun k => pk < k)).take chunk_size
      match chunk.getLast? with
      | none => some (ScanOutcome.crashed [])
      | some newPk =>
        (scan_dynamic_go tables chunk_size last_pk fuel (i + 1) newPk).map
          (ScanOutcome.consBatch chunk)
    else some (ScanOutcome.done [])

/-- `queryset_iterator` over a changing table: the maximum primary key is
captured once from the table as first seen, then the loop runs from cursor 0
with fuel `last_pk + 1`. -/
def scan_dynamic (tables : Nat → List Nat) (chunk_size : Nat) : Option ScanOutcome :=
  match (order_by_pk (tables 0)).getLast? with
  | none => some (ScanOutcome.done [])
  | some last_pk => scan_dynamic_go tables chunk_size last_pk (last_pk + 1) 0 0

/-- The alias an action addresses. -/
def AliasAction.target : AliasAction → String
  | .add _ a => a
  | .remove _ a => a

/-- The `_source` dict `build_documents_from_queryset` assembles for one
values row: every projected field converted with
`convert_model_field_to_es_format` (`utils.py` lines 95-99). -/
def rowSource (field_list : List String) (r : Row) : SearchDoc :=
  (queryset_values_row field_list r).foldl
    (fun d kv => assocUpsert d kv.fst (convert_model_field_to_es_format kv.snd)) []

/-- Check of the scanner's cursor discipline along yielded batches: every
batch is nonempty, its last element is its own maximum, and that last element
— the next low-water mark — strictly exceeds the cursor the batch was
fetched at. -/
def cursorChainB : Nat → List (List Nat) → Bool
  | _, [] => true
  | pk, b :: bs =>
    match b.getLast? with
    | none => false
    | some l => decide (pk < l) && decide (b.max? = some l) && cursorChainB l bs

/-- Fixture: a model class on the `ESBoundModel` API of `models.py` — so
without the `es_cached_fields` / `get_index_name` / `get_es_client`
attributes the stale queryset mixin expects. -/
def fixture_author_cfg : ModelCfg :=
  ModelCfg.mk "app-author" ["email"] [] ["email"] "read" "write" none

/-- Fixture: the one-row table of that model. -/
def fixture_author_db : List Row := [Row.mk 1 [("email", PyValue.strv "a@b.c")]]

/-- Fixture: an initialized engine: both aliases point at the populated
physical index `app-author-old` holding the document of row 1. -/
def fixture_author_st : ESState :=
  ESState.mk
    (fun n => if n = "app-author-old"
      then some [(1, [("email", ESValue.str "a@b.c")])] else none)
    (fun a => if a = "app-author-read" ∨ a = "app-author-write"
      then some ["app-author-old"] else none)

/-! Theorems. -/

/-- The format string of `models.py` line 63, as a list of characters. -/
theorem es_datetime_format_chars :
    es_datetime_format =
      ['%', 'd', '-', '%', 'M', '-', '%', 'Y', ' ', '%', 'H', ':', '%', 'M', ':', '%', 'S'] := by
  decide

/-- C10: for every datetime or date value the field conversion renders
`'%d-%M-%Y %H:%M:%S'`, so the middle component of the date portion is the
minute, the month never influences the output, and two values differing only
in month convert to the same string. -/
theorem C10_datetime_conversion_formats_minute_for_month :
    (∀ t : PyDateTime,
      convert_model_field_to_es_format (PyValue.datetime t) =
        ESValue.str (pad2 t.day ++ "-" ++ pad2 t.minute ++ "-" ++ pad4 t.year
          ++ " " ++ pad2 t.hour ++ ":" ++ pad2 t.minute ++ ":" ++ pad2 t.second))
    ∧ (∀ t₁ t₂ : PyDateTime, t₁.year = t₂.year → t₁.day = t₂.day →
        t₁.hour = t₂.hour → t₁.minute = t₂.minute → t₁.second = t₂.second →
        convert_model_field_to_es_format (PyValue.datetime t₁) =
          convert_model_field_to_es_format (PyValue.datetime t₂))
    ∧ (∀ y m₁ m₂ d : Nat,
        convert_model_field_to_es_format (PyValue.dateOnly y m₁ d) =
          convert_model_field_to_es_format (PyValue.dateOnly y m₂ d)) := by
  have hfmt : ∀ t : PyDateTime,
      strftime t es_datetime_format =
        pad2 t.day ++ "-" ++ pad2 t.minute ++ "-" ++ pad4 t.year
          ++ " " ++ pad2 t.hour ++ ":" ++ pad2 t.minute ++ ":" ++ pad2 t.second := by
    intro t
    rw [es_datetime_format_chars]
    simp [strftime, String.append_assoc]
  refine ⟨?_, ?_, ?_⟩
  · intro t
    simp [convert_model_field_to_es_format, hfmt]
  · intro t₁ t₂ hy hd hh hm hs
    simp [convert_model_field_to_es_format, hfmt, hy, hd, hh, hm, hs]
  · intro y m₁ m₂ d
    simp [convert_model_field_to_es_format, hfmt]

/-- Witness for C10 at concrete inputs: March and November datetimes equal
minute-for-month renderings. -/
theorem C10_datetime_conversion_witness :
    convert_model_field_to_es_format (PyValue.datetime ⟨2020, 3, 5, 7, 42, 9⟩) =
      ESValue.str "05-42-2020 07:42:09" ∧
    convert_model_field_to_es_format (PyValue.datetime ⟨2020, 3, 5, 7, 42, 9⟩) =
      convert_model_field_to_es_format (PyValue.datetime ⟨2020, 11, 5, 7, 42, 9⟩) :=
  ⟨by decide,
   C10_datetime_conversion_formats_minute_for_month.2.1
     ⟨2020, 3, 5, 7, 42, 9⟩ ⟨2020, 11, 5, 7, 42, 9⟩ rfl rfl rfl rfl rfl⟩

/-- Actions addressing other aliases leave an alias entry unchanged. -/
theorem foldl_applyAliasAction_other (a b : String) (hne : b ≠ a) :
    ∀ (acts : List AliasAction) (al : String → Option (List String)),
      (∀ act ∈ acts, act.target = a) →
      (acts.foldl applyAliasAction al) b = al b := by
  intro acts
  induction acts with
  | nil => intro al _; rfl
  | cons act rest ih =>
    intro al hall
    rw [List.foldl_cons, ih _ (fun x hx => hall x (List.mem_cons_of_mem _ hx))]
    have ha := hall act (List.mem_cons_self _ _)
    cases act with
    | add i a' =>
      simp only [AliasAction.target] at ha
      subst ha
      simp [applyAliasAction, hne]
    | remove i a' =>
      simp only [AliasAction.target] at ha
      subst ha
      simp [applyAliasAction, hne]

/-- After folding the remove actions derived from a list `rs`, the entry of
the targeted alias is either gone or a list of indices drawn from the
original binding and disjoint from `rs`. -/
theorem foldl_removes_entry (a : String) :
    ∀ (rs : List String) (al : String → Option (List String)),
      ((rs.map (fun i => AliasAction.remove i a)).foldl applyAliasAction al) a = none
      ∨ ∃ cur l, al a = some cur ∧
          ((rs.map (fun i => AliasAction.remove i a)).foldl applyAliasAction al) a = some l ∧
          ∀ x ∈ l, x ∈ cur ∧ x ∉ rs := by
  intro rs
  induction rs with
  | nil =>
    intro al
    cases h : al a with
    | none => exact Or.inl (by simpa using h)
    | some cur =>
      refine Or.inr ⟨cur, cur, rfl, by simpa using h, fun x hx => ⟨hx, by simp⟩⟩
  | cons r rest ih =>
    intro al
    rw [List.map_cons, List.foldl_cons]
    rcases ih (applyAliasAction al (AliasAction.remove r a)) with h | ⟨cur', l, hc, hl, hsub⟩
    · exact Or.inl h
    · have hstep : applyAliasAction al (AliasAction.remove r a) a =
          match al a with
          | none => none
          | some l0 =>
            let l' := l0.filter (fun j => j ≠ r)
            if l' = [] then none else some l' := by
        simp [applyAliasAction]
      cases h0 : al a with
      | none =>
        rw [h0] at hstep
        rw [hstep] at hc
        exact absurd hc (by simp)
      | some cur0 =>
        rw [h0] at hstep
        simp only at hstep
        rw [hstep] at hc
        right
        refine ⟨cur0, l, rfl, hl, ?_⟩
        intro x hx
        rcases hsub x hx with ⟨hxc, hxr⟩
        split at hc
        · exact absurd hc (by simp)
        · have hcur' : cur' = cur0.filter (fun j => decide (j ≠ r)) :=
            (Option.some_inj.1 hc).symm
          have hmf := List.mem_filter.1 (hcur' ▸ hxc)
          have hxr0 : x ≠ r := by simpa using hmf.2
          refine ⟨hmf.1, ?_⟩
          intro hmem
          rcases List.mem_cons.1 hmem with h' | h'
          · exact hxr0 h'
          · exact hxr h'

/-- C2: `bind_alias` resolves the alias to exactly the given index and does
so through a single `update_aliases` request holding one remove action per
old binding plus exactly one add action — the only alias-mutating call it
makes. -/
theorem C2_bind_alias_single_atomic_request (st : ESState) (index a : String) :
    ((bind_alias st index a).1).aliases a = some [index] ∧
    ((bind_alias st index a).2).filter ESEvent.isAliasMutation =
      [ESEvent.updateAliases
        (((st.aliases a).getD []).map (fun i => AliasAction.remove i a)
          ++ [AliasAction.add index a])] := by
  match h : st.aliases a with
  | none =>
    constructor
    · simp [bind_alias, es_exists_alias, h, es_update_aliases, applyAliasAction]
    · simp [bind_alias, es_exists_alias, h, es_update_aliases, es_get_alias,
        ESEvent.isAliasMutation]
  | some cur =>
    constructor
    · have hmain :
          ((((cur.map (fun i => AliasAction.remove i a)) ++ [AliasAction.add index a]).foldl
            applyAliasAction st.aliases)) a = some [index] := by
        rw [List.foldl_append]
        rcases foldl_removes_entry a cur st.aliases with hnone | ⟨cur', l, hc, hl, hsub⟩
        · simp [List.foldl_cons, applyAliasAction, hnone]
        · have hcur' : cur' = cur := by
            rw [h] at hc
            exact (Option.some_inj.1 hc).symm
          subst hcur'
          have hl0 : l = [] := by
            cases l with
            | nil => rfl
            | cons x xs =>
              rcases hsub x (List.mem_cons_self _ _) with ⟨hxc, hxr⟩
              exact absurd hxc hxr
          subst hl0
          simp [List.foldl_cons, applyAliasAction, hl]
      simp only [bind_alias, es_exists_alias, h, es_get_alias, es_update_aliases]
      simpa using hmain
    · simp [bind_alias, es_exists_alias, h, es_update_aliases, es_get_alias,
        ESEvent.isAliasMutation]

/-- `bind_alias` never touches documents or physical indices. -/
theorem bind_alias_indices (st : ESState) (index a : String) :
    ((bind_alias st index a).1).indices = st.indices := by
  cases h : st.aliases a <;>
    simp [bind_alias, es_exists_alias, h, es_get_alias, es_update_aliases]

/-- `bind_alias` leaves every other alias untouched. -/
theorem bind_alias_aliases_other (st : ESState) (index a b : String) (hne : b ≠ a) :
    ((bind_alias st index a).1).aliases b = st.aliases b := by
  cases h : st.aliases a with
  | none =>
    simp only [bind_alias, es_exists_alias, h, es_update_aliases]
    refine foldl_applyAliasAction_other a b hne _ _ ?_
    intro act hact
    simp at hact
    subst hact
    rfl
  | some cur =>
    simp only [bind_alias, es_exists_alias, h, es_get_alias, es_update_aliases,
      Option.isSome_some, if_pos]
    refine foldl_applyAliasAction_other a b hne _ _ ?_
    intro act hact
    rcases List.mem_append.1 hact with hm | hm
    · rcases List.mem_map.1 hm with ⟨x, _, rfl⟩
      rfl
    · simp at hm
      subst hm
      rfl

/-- `bind_alias` performs no index creation. -/
theorem bind_alias_no_create (st : ESState) (index a : String) :
    ((bind_alias st index a).2).filter ESEvent.isCreateIndex = [] := by
  cases h : st.aliases a <;>
    simp [bind_alias, es_exists_alias, h, es_get_alias, es_update_aliases,
      ESEvent.isCreateIndex]

/-- C4: on an entity type whose write alias does not exist — detected by the
distinct not-found outcome of the alias lookup — `initialize_es_model_index`
creates exactly one physical index and binds both aliases to it, and an
immediately repeated call returns the state unchanged and creates nothing. -/
theorem C4_initialize_twice_creates_one_index (cfg : ModelCfg) (st : ESState)
    (n1 n2 : String)
    (h0 : st.aliases (get_write_alias_name cfg) = none)
    (hne : get_read_alias_name cfg ≠ get_write_alias_name cfg) :
    (get_index_names_from_alias st (get_write_alias_name cfg)).1 =
        Except.error EsError.notFound ∧
    ∃ st1 evs1,
      initialize_es_model_index cfg n1 st = Except.ok (st1, evs1) ∧
      evs1.filter ESEvent.isCreateIndex = [ESEvent.createIndex n1] ∧
      st1.aliases (get_write_alias_name cfg) = some [n1] ∧
      st1.aliases (get_read_alias_name cfg) = some [n1] ∧
      ∃ evs2, initialize_es_model_index cfg n2 st1 = Except.ok (st1, evs2) ∧
        evs2.filter ESEvent.isCreateIndex = [] := by
  have hlookup : get_index_names_from_alias st (get_write_alias_name cfg) =
      (Except.error EsError.notFound, [ESEvent.getAliasEv (get_write_alias_name cfg)]) := by
    simp [get_index_names_from_alias, es_get_alias, h0]
  refine ⟨by rw [hlookup], ?_⟩
  set stc := (generate_index st n1).1 with hstc
  set stw := (bind_alias stc n1 (get_write_alias_name cfg)).1 with hstw
  set st1 := (bind_alias stw n1 (get_read_alias_name cfg)).1 with hst1
  have hwrite : st1.aliases (get_write_alias_name cfg) = some [n1] := by
    rw [hst1, bind_alias_aliases_other _ _ _ _ (fun hcontr => hne hcontr.symm), hstw]
    exact (C2_bind_alias_single_atomic_request stc n1 (get_write_alias_name cfg)).1
  have hread : st1.aliases (get_read_alias_name cfg) = some [n1] := by
    rw [hst1]
    exact (C2_bind_alias_single_atomic_request stw n1 (get_read_alias_name cfg)).1
  have hrun : initialize_es_model_index cfg n1 st =
      Except.ok (st1,
        [ESEvent.getAliasEv (get_write_alias_name cfg)]
          ++ (generate_index st n1).2
          ++ (bind_alias stc n1 (get_write_alias_name cfg)).2
          ++ (bind_alias stw n1 (get_read_alias_name cfg)).2) := by
    rw [initialize_es_model_index, hlookup]
  refine ⟨st1, _, hrun, ?_, hwrite, hread, ?_⟩
  · rw [List.filter_append, List.filter_append, List.filter_append,
      bind_alias_no_create, bind_alias_no_create]
    simp [generate_index, es_indices_create, ESEvent.isCreateIndex]
  · refine ⟨[ESEvent.getAliasEv (get_write_alias_name cfg)], ?_, by rfl⟩
    rw [initialize_es_model_index]
    simp [get_index_names_from_alias, es_get_alias, hwrite]

/-- Witness for C4 at a concrete fresh cluster and model class. -/
theorem C4_initialize_twice_witness :
    ∃ st1 evs1,
      initialize_es_model_index
          (ModelCfg.mk "app-author" [] [] [] "read" "write" none)
          "app-author-a1" (ESState.mk (fun _ => none) (fun _ => none)) =
        Except.ok (st1, evs1) ∧
      evs1.filter ESEvent.isCreateIndex = [ESEvent.createIndex "app-author-a1"] ∧
      st1.aliases (get_write_alias_name
          (ModelCfg.mk "app-author" [] [] [] "read" "write" none)) =
        some ["app-author-a1"] ∧
      st1.aliases (get_read_alias_name
          (ModelCfg.mk "app-author" [] [] [] "read" "write" none)) =
        some ["app-author-a1"] ∧
      ∃ evs2,
        initialize_es_model_index
            (ModelCfg.mk "app-author" [] [] [] "read" "write" none)
            "app-author-a2" st1 =
          Except.ok (st1, evs2) ∧
        evs2.filter ESEvent.isCreateIndex = [] :=
  (C4_initialize_twice_creates_one_index
    (ModelCfg.mk "app-author" [] [] [] "read" "write" none)
    (ESState.mk (fun _ => none) (fun _ => none))
    "app-author-a1" "app-author-a2" rfl (by decide)).2

/-- C5 counterexample: with the document already absent from the index behind
the write alias, `ESBoundModel.delete` does not complete cleanly — the
client's `NotFoundError` is swallowed by `except Exception` and re-raised as
`UnableToDeleteModelFromElasticSearch` (while the relational delete has
already happened). -/
theorem C5_delete_absent_document_raises :
    (ESBoundModel_delete (ModelCfg.mk "app-author" [] [] [] "read" "write" none)
        (Row.mk 1 []) [Row.mk 1 []]
        (ESState.mk (fun n => if n = "app-author-i0" then some [] else none)
          (fun a =>
            if a = "app-author-read" ∨ a = "app-author-write"
            then some ["app-author-i0"] else none))).1 =
      Except.error PyError.unableToDelete ∧
    (ESBoundModel_delete (ModelCfg.mk "app-author" [] [] [] "read" "write" none)
        (Row.mk 1 []) [Row.mk 1 []]
        (ESState.mk (fun n => if n = "app-author-i0" then some [] else none)
          (fun a =>
            if a = "app-author-read" ∨ a = "app-author-write"
            then some ["app-author-i0"] else none))).2.1 = [] := by
  constructor <;> rfl

/-- C5 as amended: the pk is captured before the relational delete, the
relational delete runs first, and only then is the document deleted from the
write alias by that key; but any failure of the engine delete — the document
being absent included — is re-raised as
`UnableToDeleteModelFromElasticSearch` (the relational delete is not rolled
back), because the handler is a blanket `except Exception`. -/
theorem C5_delete_order_and_blanket_wrapping (cfg : ModelCfg) (r : Row)
    (db : List Row) (st : ESState) (i : String)
    (hw : st.aliases (get_write_alias_name cfg) = some [i]) :
    (ESBoundModel_delete cfg r db st).2.1 = db.filter (fun q => q.pk ≠ r.pk) ∧
    (ESBoundModel_delete cfg r db st).2.2.2 =
      [ESEvent.deleteDoc (get_write_alias_name cfg) r.pk] ∧
    (∀ docs, st.indices i = some docs → docs.any (fun p => p.fst = r.pk) = true →
      (ESBoundModel_delete cfg r db st).1 = Except.ok () ∧
      ((ESBoundModel_delete cfg r db st).2.2.1).indices i =
        some (docs.filter (fun p => p.fst ≠ r.pk))) ∧
    ((∀ docs, st.indices i = some docs → docs.any (fun p => p.fst = r.pk) = false) →
      (ESBoundModel_delete cfg r db st).1 = Except.error PyError.unableToDelete) := by
  have hres : resolve_write_target st (get_write_alias_name cfg) = Except.ok i := by
    simp [resolve_write_target, hw]
  refine ⟨?_, ?_, ?_, ?_⟩
  · rw [ESBoundModel_delete]
    rcases hdel : es_delete_doc st (get_write_alias_name cfg) r.pk with ⟨res, st', evs⟩
    cases res <;> simp
  · simp only [ESBoundModel_delete, es_delete_doc, hres]
    cases hidx : st.indices i with
    | none => rfl
    | some docs =>
      by_cases hany : docs.any (fun p => p.fst = r.pk) = true
      · simp [hany]
      · simp only [Bool.not_eq_true] at hany
        simp [hany]
  · intro docs hidx hany
    simp only [ESBoundModel_delete, es_delete_doc, hres, hidx, hany]
    constructor
    · simp
    · simp
  · intro habsent
    simp only [ESBoundModel_delete, es_delete_doc, hres]
    cases hidx : st.indices i with
    | none => rfl
    | some docs => simp [habsent docs hidx]

/-- Witness for C5 as amended: concrete delete of a present document through
the write alias. -/
theorem C5_delete_order_witness :
    (ESBoundModel_delete (ModelCfg.mk "app-author" [] [] [] "read" "write" none)
        (Row.mk 1 []) [Row.mk 1 [], Row.mk 2 []]
        (ESState.mk
          (fun n => if n = "app-author-i0" then some [(1, []), (2, [])] else none)
          (fun a =>
            if a = "app-author-write" then some ["app-author-i0"] else none))).2.1 =
      [Row.mk 2 []] ∧
    (ESBoundModel_delete (ModelCfg.mk "app-author" [] [] [] "read" "write" none)
        (Row.mk 1 []) [Row.mk 1 [], Row.mk 2 []]
        (ESState.mk
          (fun n => if n = "app-author-i0" then some [(1, []), (2, [])] else none)
          (fun a =>
            if a = "app-author-write" then some ["app-author-i0"] else none))).1 =
      Except.ok () := by
  have h := C5_delete_order_and_blanket_wrapping
    (ModelCfg.mk "app-author" [] [] [] "read" "write" none)
    (Row.mk 1 []) [Row.mk 1 [], Row.mk 2 []]
    (ESState.mk
      (fun n => if n = "app-author-i0" then some [(1, []), (2, [])] else none)
      (fun a =>
        if a = "app-author-write" then some ["app-author-i0"] else none))
    "app-author-i0" rfl
  refine ⟨?_, (h.2.2.1 [(1, []), (2, [])] rfl (by decide)).1⟩
  rw [h.1]
  rfl

/-- C7 counterexample: with a declared cached field absent from the schema,
`save` does fail before any engine call, but the error the caller sees is
`UnableToSaveModelToElasticSearch` — the blanket `except Exception` around
the client call swallows the builder's
`NominatedFieldDoesNotExistForESIndexingException` — not the FieldNotFound
error the claim names. -/
theorem C7_save_masks_field_not_found :
    (ESBoundModel_save
        (ModelCfg.mk "app-author" ["ghost"] [] ["email"] "read" "write" none)
        (Row.mk 1 [("email", PyValue.strv "a@b.c")]) []
        (ESState.mk (fun _ => none) (fun _ => none))).1 =
      Except.error PyError.unableToSave ∧
    (ESBoundModel_save
        (ModelCfg.mk "app-author" ["ghost"] [] ["email"] "read" "write" none)
        (Row.mk 1 [("email", PyValue.strv "a@b.c")]) []
        (ESState.mk (fun _ => none) (fun _ => none))).2.2.2 = [] ∧
    (Except.error PyError.unableToSave : Except PyError Unit) ≠
      Except.error PyError.fieldNotFound := by
  refine ⟨rfl, rfl, by simp⟩

/-- The cached-field loop errors whenever some declared field is neither a
schema field nor `'pk'`. -/
theorem build_document_fields_error (cfg : ModelCfg) (r : Row) :
    ∀ (fs : List String) (doc : SearchDoc),
      (∃ f ∈ fs, ¬(f ∈ cfg.model_fields ∨ f = "pk")) →
      build_document_fields cfg r fs doc = Except.error PyError.fieldNotFound := by
  intro fs
  induction fs with
  | nil => intro doc h; simp at h
  | cons g rest ih =>
    intro doc h
    by_cases hg : g ∈ cfg.model_fields ∨ g = "pk"
    · rcases h with ⟨f, hf, hbad⟩
      rcases List.mem_cons.1 hf with rfl | hfr
      · exact absurd hg hbad
      · rw [build_document_fields, if_pos hg]
        exact ih _ ⟨f, hfr, hbad⟩
    · rw [build_document_fields, if_neg hg]

/-- C7 as amended: a declared cached field missing from the schema makes the
builders themselves — `build_document_from_model` and
`build_documents_from_queryset` — fail with the FieldNotFound error before
any call to the search engine (no provider is invoked either); through
`save` the failure still precedes any network call and leaves the index
untouched, but is re-raised wrapped as `UnableToSaveModelToElasticSearch`. -/
theorem C7_validation_fails_before_any_network_call (cfg : ModelCfg) (r : Row)
    (rows db : List Row) (st : ESState) (f : String)
    (hf : f ∈ cfg.es_cached_model_fields)
    (hbad : f ∉ cfg.model_fields) (hpk : f ≠ "pk") :
    build_document_from_model cfg r = Except.error PyError.fieldNotFound ∧
    (build_documents_from_queryset cfg rows).1 = Except.error PyError.fieldNotFound ∧
    (build_documents_from_queryset cfg rows).2.2 = [] ∧
    (ESBoundModel_save cfg r db st).1 = Except.error PyError.unableToSave ∧
    (ESBoundModel_save cfg r db st).2.2.2 = [] := by
  have hex : ∃ g ∈ cfg.es_cached_model_fields, ¬(g ∈ cfg.model_fields ∨ g = "pk") :=
    ⟨f, hf, by simp [hbad, hpk]⟩
  have hone : build_document_from_model cfg r = Except.error PyError.fieldNotFound := by
    rw [build_document_from_model, build_document_fields_error cfg r _ _ hex]
  have hguard : ¬ ∀ g ∈ (if "pk" ∈ cfg.es_cached_model_fields
      then cfg.es_cached_model_fields
      else cfg.es_cached_model_fields ++ ["pk"]), g ∈ cfg.model_fields ∨ g = "pk" := by
    intro hall
    rcases hex with ⟨g, hg, hbad'⟩
    refine hbad' (hall g ?_)
    by_cases hmem : "pk" ∈ cfg.es_cached_model_fields
    · simpa [hmem] using hg
    · simp only [hmem, if_neg, if_false]
      exact List.mem_append_left _ hg
  refine ⟨hone, ?_, ?_, ?_, ?_⟩
  · rw [build_documents_from_queryset]
    simp only [if_neg hguard]
  · rw [build_documents_from_queryset]
    simp only [if_neg hguard]
  · rw [ESBoundModel_save, hone]
  · rw [ESBoundModel_save, hone]

/-- Witness for C7 as amended at a concrete misdeclared model class. -/
theorem C7_validation_witness :
    build_document_from_model
        (ModelCfg.mk "app-author" ["ghost"] [] ["email"] "read" "write" none)
        (Row.mk 2 [("email", PyValue.strv "x@y.z")]) =
      Except.error PyError.fieldNotFound ∧
    (build_documents_from_queryset
        (ModelCfg.mk "app-author" ["ghost"] [] ["email"] "read" "write" none)
        [Row.mk 2 [("email", PyValue.strv "x@y.z")]]).1 =
      Except.error PyError.fieldNotFound ∧
    (ESBoundModel_save
        (ModelCfg.mk "app-author" ["ghost"] [] ["email"] "read" "write" none)
        (Row.mk 2 [("email", PyValue.strv "x@y.z")]) []
        (ESState.mk (fun _ => none) (fun _ => none))).2.2.2 = [] := by
  have h := C7_validation_fails_before_any_network_call
    (ModelCfg.mk "app-author" ["ghost"] [] ["email"] "read" "write" none)
    (Row.mk 2 [("email", PyValue.strv "x@y.z")])
    [Row.mk 2 [("email", PyValue.strv "x@y.z")]] []
    (ESState.mk (fun _ => none) (fun _ => none))
    "ghost" (by decide) (by decide) (by decide)
  exact ⟨h.1, h.2.1, h.2.2.2.2⟩

/-- Looking up the upserted key finds the new value. -/
theorem assocUpsert_lookup_self {α β : Type} [DecidableEq α] [BEq α] [LawfulBEq α]
    (d : List (α × β)) (k : α) (v : β) : (assocUpsert d k v).lookup k = some v := by
  induction d with
  | nil => simp [assocUpsert, List.lookup]
  | cons e rest ih =>
    rcases e with ⟨k', v'⟩
    rw [assocUpsert]
    by_cases h : k' = k
    · simp [h, List.lookup]
    · simp only [if_neg h, List.lookup]
      have : (k == k') = false := by
        rw [beq_eq_false_iff_ne]
        exact fun hc => h hc.symm
      rw [this]
      exact ih

/-- Upserting one key does not change lookups of other keys. -/
theorem assocUpsert_lookup_ne {α β : Type} [DecidableEq α] [BEq α] [LawfulBEq α]
    (d : List (α × β)) (k k' : α) (v : β) (h : k' ≠ k) :
    (assocUpsert d k v).lookup k' = d.lookup k' := by
  induction d with
  | nil =>
    simp only [assocUpsert, List.lookup]
    rw [show (k' == k) = false from beq_eq_false_iff_ne.2 h]
  | cons e rest ih =>
    rcases e with ⟨k0, v0⟩
    rw [assocUpsert]
    by_cases h0 : k0 = k
    · subst h0
      simp only [if_pos rfl, List.lookup]
      rw [show (k' == k0) = false from beq_eq_false_iff_ne.2 h]
    · simp only [if_neg h0, List.lookup]
      by_cases h1 : k' = k0
      · rw [show (k' == k0) = true from beq_iff_eq.2 h1]
      · rw [show (k' == k0) = false from beq_eq_false_iff_ne.2 h1]
        exact ih

/-- Upserting a key absent from the list appends the pair. -/
theorem assocUpsert_of_not_mem {α β : Type} [DecidableEq α]
    (d : List (α × β)) (k : α) (v : β) (h : k ∉ d.map Prod.fst) :
    assocUpsert d k v = d ++ [(k, v)] := by
  induction d with
  | nil => rfl
  | cons e rest ih =>
    rcases e with ⟨k0, v0⟩
    have hne : k0 ≠ k := by
      intro hc
      exact h (by simp [hc])
    have h' : k ∉ rest.map Prod.fst := fun hc => h (by
      rw [List.map_cons]
      exact List.mem_cons_of_mem _ hc)
    rw [assocUpsert, if_neg hne, ih h']
    rfl

/-- Folding fresh-keyed upserts appends the corresponding pairs. -/
theorem foldl_upsert_fresh {α β γ : Type} [DecidableEq α]
    (key : γ → α) (val : γ → β) :
    ∀ (xs : List γ) (acc : List (α × β)),
      (acc.map Prod.fst ++ xs.map key).Nodup →
      xs.foldl (fun a x => assocUpsert a (key x) (val x)) acc =
        acc ++ xs.map (fun x => (key x, val x)) := by
  intro xs
  induction xs with
  | nil => intro acc _; simp
  | cons x rest ih =>
    intro acc hnd
    have hfresh : key x ∉ acc.map Prod.fst := by
      rcases List.nodup_append.1 hnd with ⟨_, _, hdisj⟩
      intro hc
      exact hdisj hc (by simp)
    rw [List.foldl_cons, assocUpsert_of_not_mem _ _ _ hfresh]
    have hnd' : ((acc ++ [(key x, val x)]).map Prod.fst ++ rest.map key).Nodup := by
      have : (acc ++ [(key x, val x)]).map Prod.fst ++ rest.map key =
          acc.map Prod.fst ++ key x :: rest.map key := by
        simp
      rw [this]
      simpa using hnd
    rw [ih _ hnd']
    simp

/-- Upserts whose keys avoid the head of the accumulator act below it. -/
theorem foldl_upsert_skip_head {α β γ : Type} [DecidableEq α]
    (key : γ → α) (val : γ → β) :
    ∀ (xs : List γ) (a : α × β) (acc : List (α × β)),
      (∀ x ∈ xs, key x ≠ a.fst) →
      xs.foldl (fun d x => assocUpsert d (key x) (val x)) (a :: acc) =
        a :: xs.foldl (fun d x => assocUpsert d (key x) (val x)) acc := by
  intro xs
  induction xs with
  | nil => intro a acc _; rfl
  | cons x rest ih =>
    intro a acc hne
    rcases a with ⟨ka, va⟩
    rw [List.foldl_cons, assocUpsert,
      if_neg (fun hc => hne x (List.mem_cons_self _ _) hc.symm)]
    rw [ih _ _ (fun y hy => hne y (List.mem_cons_of_mem _ hy))]
    rfl

/-- Folding upserts keyed exactly by the accumulator's (duplicate-free) key
sequence replaces every stored value. -/
theorem foldl_upsert_replace {α β γ : Type} [DecidableEq α]
    (key : γ → α) (val : γ → β) :
    ∀ (xs : List γ) (acc : List (α × β)),
      acc.map Prod.fst = xs.map key →
      (xs.map key).Nodup →
      xs.foldl (fun d x => assocUpsert d (key x) (val x)) acc =
        xs.map (fun x => (key x, val x)) := by
  intro xs
  induction xs with
  | nil =>
    intro acc hkeys _
    have : acc = [] := by
      cases acc with
      | nil => rfl
      | cons e r => simp at hkeys
    rw [this]
    rfl
  | cons x rest ih =>
    intro acc hkeys hnd
    cases acc with
    | nil => simp at hkeys
    | cons a accrest =>
      simp only [List.map_cons, List.cons.injEq] at hkeys
      rcases hkeys with ⟨hafst, hrest⟩
      rw [List.foldl_cons]
      have hup : assocUpsert (a :: accrest) (key x) (val x) =
          (key x, val x) :: accrest := by
        rcases a with ⟨ka, va⟩
        simp only at hafst
        rw [assocUpsert, if_pos hafst]
      rw [hup]
      have hnotin : ∀ y ∈ rest, key y ≠ (key x, val x).fst := by
        intro y hy
        simp only
        rw [List.map_cons] at hnd
        have := (List.nodup_cons.1 hnd).1
        intro hc
        exact this (hc ▸ List.mem_map_of_mem key hy)
      rw [foldl_upsert_skip_head key val rest _ _ hnotin]
      rw [ih _ hrest (List.nodup_cons.1 (by rwa [List.map_cons] at hnd)).2]
      rfl

/-- With duplicate-free primary keys, the two dict-building passes of
`build_documents_from_queryset` produce exactly one entry per row, in row
order, whose `_source` is the converted values row. -/
theorem build_documents_base_eq (field_list : List String) (rows : List Row)
    (h : (rows.map Row.pk).Nodup) :
    build_documents_base field_list rows =
      rows.map (fun r => (r.pk, rowSource field_list r)) := by
  rw [build_documents_base]
  have hkeys : (rows.map (fun r => (r.pk, queryset_values_row field_list r))).map Prod.fst
      = rows.map Row.pk := by
    rw [List.map_map]
    rfl
  have h1 : (rows.map (fun r => (r.pk, queryset_values_row field_list r))).foldl
      (fun acc mv => assocUpsert acc mv.fst ([] : SearchDoc)) [] =
      (rows.map (fun r => (r.pk, queryset_values_row field_list r))).map
        (fun mv => (mv.fst, ([] : SearchDoc))) := by
    have := foldl_upsert_fresh (γ := Nat × List (String × PyValue)) Prod.fst
      (fun _ => ([] : SearchDoc))
      (rows.map (fun r => (r.pk, queryset_values_row field_list r))) []
      (by rw [List.map_nil, List.nil_append, hkeys]; exact h)
    simpa using this
  rw [h1]
  have h2 := foldl_upsert_replace (γ := Nat × List (String × PyValue)) Prod.fst
    (fun mv => mv.snd.foldl
      (fun d kv => assocUpsert d kv.fst (convert_model_field_to_es_format kv.snd)) [])
    (rows.map (fun r => (r.pk, queryset_values_row field_list r)))
    ((rows.map (fun r => (r.pk, queryset_values_row field_list r))).map
      (fun mv => (mv.fst, ([] : SearchDoc))))
    (by rw [List.map_map]; rfl)
    (by rw [hkeys]; exact h)
  simp only [] at h2
  refine h2.trans ?_
  rw [List.map_map]
  rfl

/-- A key projected by the values row survives the `_source` fold. -/
theorem foldl_upsert_lookup_isSome {α β γ : Type} [DecidableEq α] [BEq α] [LawfulBEq α]
    (key : γ → α) (val : γ → β) :
    ∀ (xs : List γ) (d : List (α × β)) (k : α),
      (k ∈ xs.map key ∨ (d.lookup k).isSome = true) →
      ((xs.foldl (fun d x => assocUpsert d (key x) (val x)) d).lookup k).isSome = true := by
  intro xs
  induction xs with
  | nil =>
    intro d k h
    rcases h with h | h
    · simp at h
    · simpa using h
  | cons x rest ih =>
    intro d k h
    rw [List.foldl_cons]
    by_cases hk : k = key x
    · refine ih _ _ (Or.inr ?_)
      rw [hk, assocUpsert_lookup_self]
      rfl
    · rcases h with h | h
      · rw [List.map_cons] at h
        rcases List.mem_cons.1 h with h' | h'
        · exact absurd h' hk
        · exact ih _ _ (Or.inl h')
      · refine ih _ _ (Or.inr ?_)
        rw [assocUpsert_lookup_ne _ _ _ _ hk]
        exact h

/-- When the provider returned a value for every key, the per-key loop
succeeds and stores that value in each document. -/
theorem applyProvider_ok (p : ProviderCfg) (vals : List (Nat × ESValue)) :
    ∀ (docs : List (Nat × SearchDoc)),
      (∀ pk ∈ docs.map Prod.fst, (vals.lookup pk).isSome = true) →
      applyProvider p vals docs =
        Except.ok (docs.map (fun e =>
          (e.fst, assocUpsert e.snd p.field_name
            ((vals.lookup e.fst).getD (ESValue.num 0))))) := by
  intro docs
  induction docs with
  | nil => intro _; rfl
  | cons e rest ih =>
    intro h
    rcases e with ⟨pk, doc⟩
    have hpk := h pk (by simp)
    rcases hlook : vals.lookup pk with _ | v
    · rw [hlook] at hpk
      simp at hpk
    · rw [applyProvider, hlook, ih (fun k hk => h k (by simp at hk ⊢; right; exact hk))]
      simp [hlook]

/-- Any successful provider pass only rewrites each document by upserting the
provider's field. -/
theorem applyProvider_ok_shape (p : ProviderCfg) (vals : List (Nat × ESValue)) :
    ∀ (docs docs' : List (Nat × SearchDoc)),
      applyProvider p vals docs = Except.ok docs' →
      ∀ e' ∈ docs', ∃ e ∈ docs, e'.fst = e.fst ∧
        ∃ v, e'.snd = assocUpsert e.snd p.field_name v := by
  intro docs
  induction docs with
  | nil =>
    intro docs' hok e' he'
    rw [applyProvider] at hok
    cases hok
    simp at he'
  | cons e rest ih =>
    intro docs' hok e' he'
    rcases e with ⟨pk, doc⟩
    rw [applyProvider] at hok
    rcases hlook : vals.lookup pk with _ | v <;> rw [hlook] at hok
    · cases hok
    · rcases hrest : applyProvider p vals rest with e0 | rest' <;> rw [hrest] at hok
      · cases hok
      · rw [Except.ok.injEq] at hok
        subst hok
        rcases List.mem_cons.1 he' with rfl | hmem
        · exact ⟨(pk, doc), List.mem_cons_self _ _, rfl, v, rfl⟩
        · rcases ih rest' hrest e' hmem with ⟨e0, he0, hfst, v0, hsnd⟩
          exact ⟨e0, List.mem_cons_of_mem _ he0, hfst, v0, hsnd⟩

/-- Master description of the provider loop when every provider's bulk map
covers every requested key: the run succeeds, each provider is called exactly
once with the unchanged full key set, and each provider's field ends up
present in every document (earlier fields are preserved). -/
theorem applyProviders_ok (ps : List ProviderCfg) :
    ∀ (docs : List (Nat × SearchDoc)),
      (∀ p ∈ ps, ∀ pk ∈ docs.map Prod.fst,
        ((p.compute (docs.map Prod.fst)).lookup pk).isSome = true) →
      ∃ docs',
        applyProviders ps docs =
          (Except.ok docs', ps.map (fun p => (p.field_name, docs.map Prod.fst))) ∧
        docs'.map Prod.fst = docs.map Prod.fst ∧
        (∀ p ∈ ps, ∀ e ∈ docs', (e.snd.lookup p.field_name).isSome = true) ∧
        (∀ k, (∀ e ∈ docs, (e.snd.lookup k).isSome = true) →
          ∀ e ∈ docs', (e.snd.lookup k).isSome = true) := by
  induction ps with
  | nil =>
    intro docs _
    exact ⟨docs, rfl, rfl, by simp, fun k h e he => h e he⟩
  | cons p rest ih =>
    intro docs h
    have hp := h p (List.mem_cons_self _ _)
    have hmap := applyProvider_ok p (p.compute (docs.map Prod.fst)) docs hp
    set docs1 : List (Nat × SearchDoc) := docs.map (fun e =>
      (e.fst, assocUpsert e.snd p.field_name
        (((p.compute (docs.map Prod.fst)).lookup e.fst).getD (ESValue.num 0)))) with hdocs1
    have hfst : docs1.map Prod.fst = docs.map Prod.fst := by
      rw [hdocs1, List.map_map]
      rfl
    have hpresent1 : ∀ e ∈ docs1, (e.snd.lookup p.field_name).isSome = true := by
      intro e he
      rcases List.mem_map.1 he with ⟨e0, _, rfl⟩
      rw [assocUpsert_lookup_self]
      rfl
    have hkeep1 : ∀ k, (∀ e ∈ docs, (e.snd.lookup k).isSome = true) →
        ∀ e ∈ docs1, (e.snd.lookup k).isSome = true := by
      intro k hk e he
      rcases List.mem_map.1 he with ⟨e0, he0, rfl⟩
      by_cases hkf : k = p.field_name
      · rw [hkf, assocUpsert_lookup_self]
        rfl
      · rw [assocUpsert_lookup_ne _ _ _ _ hkf]
        exact hk e0 he0
    have h' : ∀ q ∈ rest, ∀ pk ∈ docs1.map Prod.fst,
        ((q.compute (docs1.map Prod.fst)).lookup pk).isSome = true := by
      rw [hfst]
      exact fun q hq => h q (List.mem_cons_of_mem _ hq)
    rcases ih docs1 h' with ⟨docs', hrun, hfst', hfields, hpres⟩
    refine ⟨docs', ?_, by rw [hfst', hfst], ?_, ?_⟩
    · rw [applyProviders, hmap]
      simp only []
      rw [hrun, hfst]
      rfl
    · intro q hq e he
      rcases List.mem_cons.1 hq with rfl | hq'
      · exact hpres q.field_name hpresent1 e he
      · exact hfields q hq' e he
    · intro k hk e he
      exact hpres k (hkeep1 k hk) e he

/-- A successful provider run only ever upserts provider fields, so any key
present in every incoming document stays present. -/
theorem applyProviders_preserve (ps : List ProviderCfg) :
    ∀ (docs docs' : List (Nat × SearchDoc)),
      (applyProviders ps docs).1 = Except.ok docs' →
      ∀ k, (∀ e ∈ docs, (e.snd.lookup k).isSome = true) →
        ∀ e ∈ docs', (e.snd.lookup k).isSome = true := by
  induction ps with
  | nil =>
    intro docs docs' hok k hk e he
    rw [applyProviders] at hok
    cases hok
    exact hk e he
  | cons p rest ih =>
    intro docs docs' hok k hk e he
    rw [applyProviders] at hok
    rcases happ : applyProvider p (p.compute (docs.map Prod.fst)) docs with e0 | docs1 <;>
      rw [happ] at hok
    · cases hok
    · simp only [] at hok
      rcases hrest : applyProviders rest docs1 with ⟨res, calls⟩
      rw [hrest] at hok
      simp only at hok
      have hk1 : ∀ e ∈ docs1, (e.snd.lookup k).isSome = true := by
        intro e1 he1
        rcases applyProvider_ok_shape p _ docs docs1 happ e1 he1 with
          ⟨e2, he2, _, v, hsnd⟩
        rw [hsnd]
        by_cases hkf : k = p.field_name
        · rw [hkf, assocUpsert_lookup_self]
          rfl
        · rw [assocUpsert_lookup_ne _ _ _ _ hkf]
          exact hk e2 he2
      exact ih docs1 docs' (by rw [hrest]; exact hok) k hk1 e he

/-- The mutated cached-field list is returned no matter how the build ends. -/
theorem build_documents_field_list (cfg : ModelCfg) (rows : List Row) :
    (build_documents_from_queryset cfg rows).2.1 =
      (if "pk" ∈ cfg.es_cached_model_fields then cfg.es_cached_model_fields
       else cfg.es_cached_model_fields ++ ["pk"]) := by
  rw [build_documents_from_queryset]
  by_cases hg : ∀ f ∈ (if "pk" ∈ cfg.es_cached_model_fields
      then cfg.es_cached_model_fields else cfg.es_cached_model_fields ++ ["pk"]),
      f ∈ cfg.model_fields ∨ f = "pk"
  · rw [if_pos hg]
  · rw [if_neg hg]

/-- C6: with valid declared fields, duplicate-free keys and well-behaved
providers, `build_documents_from_queryset` calls each declared provider's
bulk map exactly once with the entire matched key set, and returns one
document per matched primary key with every provider field populated. -/
theorem C6_buildMany_calls_each_provider_once_bulk (cfg : ModelCfg)
    (rows : List Row)
    (hnd : (rows.map Row.pk).Nodup)
    (hfields : ∀ f ∈ cfg.es_cached_model_fields, f ∈ cfg.model_fields ∨ f = "pk")
    (hprov : ∀ p ∈ cfg.es_cached_extra_fields, ∀ pk ∈ rows.map Row.pk,
      ((p.compute (rows.map Row.pk)).lookup pk).isSome = true) :
    ∃ docs,
      (build_documents_from_queryset cfg rows).1 = Except.ok docs ∧
      (build_documents_from_queryset cfg rows).2.2 =
        cfg.es_cached_extra_fields.map (fun p => (p.field_name, rows.map Row.pk)) ∧
      docs.map Prod.fst = rows.map Row.pk ∧
      (∀ p ∈ cfg.es_cached_extra_fields, ∀ e ∈ docs,
        (e.snd.lookup p.field_name).isSome = true) := by
  have hguard : ∀ f ∈ (if "pk" ∈ cfg.es_cached_model_fields
      then cfg.es_cached_model_fields else cfg.es_cached_model_fields ++ ["pk"]),
      f ∈ cfg.model_fields ∨ f = "pk" := by
    intro f hf
    by_cases hmem : "pk" ∈ cfg.es_cached_model_fields
    · exact hfields f (by simpa [hmem] using hf)
    · rw [if_neg hmem] at hf
      rcases List.mem_append.1 hf with h' | h'
      · exact hfields f h'
      · right
        simpa using h'
  have hbase := build_documents_base_eq
    (if "pk" ∈ cfg.es_cached_model_fields then cfg.es_cached_model_fields
     else cfg.es_cached_model_fields ++ ["pk"]) rows hnd
  have hbfst : (rows.map (fun r => (r.pk,
      rowSource (if "pk" ∈ cfg.es_cached_model_fields then cfg.es_cached_model_fields
        else cfg.es_cached_model_fields ++ ["pk"]) r))).map Prod.fst =
      rows.map Row.pk := by
    rw [List.map_map]
    rfl
  have hprov' : ∀ p ∈ cfg.es_cached_extra_fields,
      ∀ pk ∈ (rows.map (fun r => (r.pk,
        rowSource (if "pk" ∈ cfg.es_cached_model_fields then cfg.es_cached_model_fields
          else cfg.es_cached_model_fields ++ ["pk"]) r))).map Prod.fst,
      ((p.compute ((rows.map (fun r => (r.pk,
        rowSource (if "pk" ∈ cfg.es_cached_model_fields then cfg.es_cached_model_fields
          else cfg.es_cached_model_fields ++ ["pk"]) r))).map Prod.fst)).lookup pk).isSome
        = true := by
    rw [hbfst]
    exact hprov
  rcases applyProviders_ok cfg.es_cached_extra_fields _ hprov' with
    ⟨docs', hrun, hfst', hfieldsp, _⟩
  refine ⟨docs', ?_, ?_, ?_, hfieldsp⟩
  · rw [build_documents_from_queryset, if_pos hguard, hbase]
    simp only [hrun]
  · rw [build_documents_from_queryset, if_pos hguard, hbase]
    simp only [hrun]
    simp only [hbfst]
  · rw [hfst', hbfst]

/-- Witness for C6: two rows, one provider computing one value per key. -/
theorem C6_buildMany_witness :
    ∃ docs,
      (build_documents_from_queryset
        (ModelCfg.mk "app-author" ["email"]
          [ProviderCfg.mk "uid" (fun pks => pks.map (fun k => (k, ESValue.num k)))]
          ["email"] "read" "write" none)
        [Row.mk 1 [("email", PyValue.strv "a@b.c")],
         Row.mk 2 [("email", PyValue.strv "x@y.z")]]).1 = Except.ok docs ∧
      (build_documents_from_queryset
        (ModelCfg.mk "app-author" ["email"]
          [ProviderCfg.mk "uid" (fun pks => pks.map (fun k => (k, ESValue.num k)))]
          ["email"] "read" "write" none)
        [Row.mk 1 [("email", PyValue.strv "a@b.c")],
         Row.mk 2 [("email", PyValue.strv "x@y.z")]]).2.2 =
        [("uid", [1, 2])] ∧
      docs.map Prod.fst = [1, 2] ∧
      (∀ p ∈ [ProviderCfg.mk "uid" (fun pks => pks.map (fun k => (k, ESValue.num k)))],
        ∀ e ∈ docs, (e.snd.lookup p.field_name).isSome = true) := by
  rcases C6_buildMany_calls_each_provider_once_bulk
    (ModelCfg.mk "app-author" ["email"]
      [ProviderCfg.mk "uid" (fun pks => pks.map (fun k => (k, ESValue.num k)))]
      ["email"] "read" "write" none)
    [Row.mk 1 [("email", PyValue.strv "a@b.c")],
     Row.mk 2 [("email", PyValue.strv "x@y.z")]]
    (by decide) (by decide)
    (by
      intro p hp
      rw [List.mem_singleton] at hp
      subst hp
      decide) with ⟨docs, h1, h2, h3, h4⟩
  exact ⟨docs, h1, h2, h3, h4⟩

/-- C9: when `'pk'` is not among the declared cached fields, one call to
`build_documents_from_queryset` appends `'pk'` to the class-level list in
place (the returned list is the class attribute after the call), a later call
seeing the grown list appends nothing further, and every document built
carries a `'pk'` field in its `_source`. -/
theorem C9_buildMany_appends_pk_in_place (cfg : ModelCfg) (rows : List Row)
    (hpk : "pk" ∉ cfg.es_cached_model_fields)
    (hnd : (rows.map Row.pk).Nodup) :
    (build_documents_from_queryset cfg rows).2.1 =
      cfg.es_cached_model_fields ++ ["pk"] ∧
    (∀ (cfg' : ModelCfg) (rows2 : List Row), "pk" ∈ cfg'.es_cached_model_fields →
      (build_documents_from_queryset cfg' rows2).2.1 = cfg'.es_cached_model_fields) ∧
    (∀ docs, (build_documents_from_queryset cfg rows).1 = Except.ok docs →
      ∀ e ∈ docs, (e.snd.lookup "pk").isSome = true) := by
  refine ⟨?_, ?_, ?_⟩
  · rw [build_documents_field_list, if_neg hpk]
  · intro cfg' rows2 hmem
    rw [build_documents_field_list, if_pos hmem]
  · intro docs hok
    by_cases hg : ∀ f ∈ (if "pk" ∈ cfg.es_cached_model_fields
        then cfg.es_cached_model_fields else cfg.es_cached_model_fields ++ ["pk"]),
        f ∈ cfg.model_fields ∨ f = "pk"
    · rw [build_documents_from_queryset, if_pos hg] at hok
      rcases happ : applyProviders cfg.es_cached_extra_fields
        (build_documents_base (if "pk" ∈ cfg.es_cached_model_fields
          then cfg.es_cached_model_fields
          else cfg.es_cached_model_fields ++ ["pk"]) rows) with ⟨res, calls⟩
      simp only [happ] at hok
      have hbasepk : ∀ e ∈ build_documents_base
          (if "pk" ∈ cfg.es_cached_model_fields then cfg.es_cached_model_fields
           else cfg.es_cached_model_fields ++ ["pk"]) rows,
          (e.snd.lookup "pk").isSome = true := by
        rw [build_documents_base_eq _ rows hnd]
        intro e he
        rcases List.mem_map.1 he with ⟨r, _, rfl⟩
        refine foldl_upsert_lookup_isSome Prod.fst
          (fun kv => convert_model_field_to_es_format kv.snd) _ _ _ (Or.inl ?_)
        have hmapfst : (queryset_values_row
            (if "pk" ∈ cfg.es_cached_model_fields then cfg.es_cached_model_fields
             else cfg.es_cached_model_fields ++ ["pk"]) r).map Prod.fst =
            (if "pk" ∈ cfg.es_cached_model_fields then cfg.es_cached_model_fields
             else cfg.es_cached_model_fields ++ ["pk"]) := by
          rw [queryset_values_row, List.map_map]
          exact List.map_id _
        rw [hmapfst, if_neg hpk]
        exact List.mem_append_right _ (by simp)
      exact applyProviders_preserve cfg.es_cached_extra_fields _ docs
        (by rw [happ]; exact hok) "pk" hbasepk
    · rw [build_documents_from_queryset, if_neg hg] at hok
      cases hok

/-- Witness for C9: a class declaring only `email` gains `pk`, and the built
documents carry it. -/
theorem C9_buildMany_pk_witness :
    (build_documents_from_queryset
      (ModelCfg.mk "app-author" ["email"] [] ["email"] "read" "write" none)
      [Row.mk 7 [("email", PyValue.strv "a@b.c")]]).2.1 = ["email", "pk"] ∧
    (∀ docs, (build_documents_from_queryset
        (ModelCfg.mk "app-author" ["email"] [] ["email"] "read" "write" none)
        [Row.mk 7 [("email", PyValue.strv "a@b.c")]]).1 = Except.ok docs →
      ∀ e ∈ docs, (e.snd.lookup "pk").isSome = true) := by
  have h := C9_buildMany_appends_pk_in_place
    (ModelCfg.mk "app-author" ["email"] [] ["email"] "read" "write" none)
    [Row.mk 7 [("email", PyValue.strv "a@b.c")]]
    (by decide) (by decide)
  exact ⟨h.1, h.2.2⟩

/-- Sorting an already ascending list changes nothing. -/
theorem order_by_pk_of_chain' : ∀ (l : List Nat),
    List.Chain' (· ≤ ·) l → order_by_pk l = l := by
  intro l
  induction l with
  | nil => intro _; rfl
  | cons a rest ih =>
    intro h
    have hrest : List.Chain' (· ≤ ·) rest := by
      cases rest with
      | nil => exact List.chain'_nil
      | cons b rest2 => exact (List.chain'_cons.1 h).2
    have hstep : order_by_pk (a :: rest) = insertSorted a (order_by_pk rest) := rfl
    rw [hstep, ih hrest]
    cases rest with
    | nil => rfl
    | cons b rest2 =>
      rw [insertSorted, if_pos (List.chain'_cons.1 h).1]

/-- Filtering the keys strictly above a cursor out of `1..N`. -/
theorem filter_range'_gt (N : Nat) : ∀ p : Nat,
    (List.range' 1 N).filter (fun k => decide (p < k)) =
      List.range' (p + 1) (N - p) := by
  induction N with
  | zero =>
    intro p
    rw [Nat.zero_sub]
    rfl
  | succ n ih =>
    intro p
    rw [List.range'_1_concat, List.filter_append, ih p]
    by_cases hp : p < 1 + n
    · have h1 : (List.filter (fun k => decide (p < k)) [1 + n]) = [1 + n] := by
        simp [hp]
      rw [h1]
      have h2 : n + 1 - p = (n - p) + 1 := by omega
      rw [h2, List.range'_1_concat]
      have h3 : (p + 1) + (n - p) = 1 + n := by omega
      rw [h3]
    · have h1 : (List.filter (fun k => decide (p < k)) [1 + n]) = [] := by
        simp
        omega
      rw [h1, List.append_nil]
      have h2 : n + 1 - p = n - p := by omega
      rw [h2]

/-- Taking a prefix of a consecutive range. -/
theorem take_range' : ∀ (C n s : Nat),
    (List.range' s n).take C = List.range' s (min C n) := by
  intro C
  induction C with
  | zero => intro n s; simp
  | succ c ih =>
    intro n s
    cases n with
    | zero => simp
    | succ m =>
      rw [List.range'_succ, List.take_succ_cons, ih m (s + 1)]
      have h1 : min (c + 1) (m + 1) = min c m + 1 := by omega
      rw [h1, List.range'_succ]

/-- The last element of a nonempty consecutive range. -/
theorem getLast?_range' : ∀ (n s : Nat), 0 < n →
    (List.range' s n).getLast? = some (s + n - 1) := by
  intro n
  cases n with
  | zero => intro s h; omega
  | succ m =>
    intro s _
    rw [List.range'_1_concat, List.getLast?_concat]
    congr 1

/-- The batch count collapses by one chunk per loop step. -/
theorem chunk_count_step (d C : Nat) (hC : 0 < C) (hd : 0 < d) :
    (d - min C d + C - 1) / C + 1 = (d + C - 1) / C := by
  have h2 : d + C - 1 = (d - 1) + C := by omega
  rw [h2, Nat.add_div_right _ hC]
  congr 1
  rcases Nat.le_total d C with h | h
  · rw [Nat.min_eq_right h]
    have h3 : d - d + C - 1 = C - 1 := by omega
    rw [h3, Nat.div_eq_of_lt (by omega), Nat.div_eq_of_lt (by omega)]
  · rw [Nat.min_eq_left h]
    congr 1
    omega

/-- Loop invariant of `queryset_iterator` over the table `1..N`: from cursor
`p` (with enough fuel) the loop terminates and yields chunks that partition
`p+1..N` in order, `⌈(N-p)/C⌉` of them. -/
theorem queryset_iterator_go_range (N C : Nat) (hC : 0 < C) :
    ∀ (fuel p : Nat), N - p < fuel →
      ∃ bs, queryset_iterator_go (List.range' 1 N) C N fuel p = some bs ∧
        bs.flatten = List.range' (p + 1) (N - p) ∧
        bs.length = (N - p + C - 1) / C := by
  intro fuel
  induction fuel with
  | zero => intro p h; omega
  | succ f ih =>
    intro p hp
    by_cases hpN : p < N
    · have hchunk : ((List.range' 1 N).filter (fun k => decide (p < k))).take C =
          List.range' (p + 1) (min C (N - p)) := by
        rw [filter_range'_gt, take_range']
      have hminle : min C (N - p) ≤ N - p := Nat.min_le_right _ _
      have hminpos : 0 < min C (N - p) := Nat.lt_min.2 ⟨hC, by omega⟩
      have hlast : (List.range' (p + 1) (min C (N - p))).getLast? =
          some (p + min C (N - p)) := by
        rw [getLast?_range' _ _ hminpos]
        congr 1
        omega
      have hfuel : N - (p + min C (N - p)) < f := by
        rcases Nat.le_total C (N - p) with hcle | hcle
        · rw [Nat.min_eq_left hcle]
          omega
        · rw [Nat.min_eq_right hcle]
          omega
      rcases ih (p + min C (N - p)) hfuel with ⟨bs, hgo, hjoin, hlen⟩
      refine ⟨List.range' (p + 1) (min C (N - p)) :: bs, ?_, ?_, ?_⟩
      · simp only [queryset_iterator_go, if_pos hpN, hchunk, hlast, hgo,
          Option.map_some']
      · rw [List.flatten_cons, hjoin]
        have := List.range'_append (p + 1) (min C (N - p))
          (N - (p + min C (N - p))) 1
        rw [Nat.one_mul] at this
        have h4 : (p + 1) + min C (N - p) = p + min C (N - p) + 1 := by omega
        rw [h4] at this
        have h5 : N - (p + min C (N - p)) + min C (N - p) = N - p := by omega
        rw [h5] at this
        exact this
      · rw [List.length_cons, hlen]
        have h6 : N - (p + min C (N - p)) = (N - p) - min C (N - p) := by omega
        rw [h6]
        exact chunk_count_step (N - p) C hC (by omega)
    · refine ⟨[], ?_, ?_, ?_⟩
      · simp only [queryset_iterator_go, if_neg hpN]
      · have h7 : N - p = 0 := by omega
        rw [h7]
        rfl
      · have h7 : N - p = 0 := by omega
        rw [h7, Nat.div_eq_of_lt (by omega)]
        rfl

/-- C3: over the table with primary keys `1..N` and a chunk size
`0 < C < N`, `queryset_iterator` terminates and yields exactly `⌈N/C⌉`
batches whose concatenation is exactly `1..N` in ascending order — every row
exactly once. The maximum key is captured once up front and each fetch takes
the next `C` keys strictly greater than the cursor. -/
theorem C3_queryset_iterator_batches_cover_table (N C : Nat)
    (hC : 0 < C) (hCN : C < N) :
    ∃ bs, queryset_iterator (List.range' 1 N) C = some bs ∧
      bs.length = (N + C - 1) / C ∧
      bs.flatten = List.range' 1 N := by
  have hchain : List.Chain' (· ≤ ·) (List.range' 1 N) :=
    ((List.pairwise_lt_range' 1 N).imp (fun h => Nat.le_of_lt h)).chain'
  have hsort : order_by_pk (List.range' 1 N) = List.range' 1 N :=
    order_by_pk_of_chain' _ hchain
  have hN : 0 < N := Nat.lt_trans hC hCN
  have hlast : (order_by_pk (List.range' 1 N)).getLast? = some N := by
    rw [hsort, getLast?_range' N 1 hN]
    congr 1
    omega
  rcases queryset_iterator_go_range N C hC (N + 1) 0 (by omega) with
    ⟨bs, hgo, hjoin, hlen⟩
  refine ⟨bs, ?_, ?_, ?_⟩
  · rw [queryset_iterator, hlast, hsort]
    exact hgo
  · rw [hlen]
    simp
  · rw [hjoin]
    simp

/-- Witness for C3: ten rows, chunk size three, four batches. -/
theorem C3_queryset_iterator_witness :
    ∃ bs, queryset_iterator (List.range' 1 10) 3 = some bs ∧
      bs.length = 4 ∧
      bs.flatten = List.range' 1 10 :=
  C3_queryset_iterator_batches_cover_table 10 3 (by decide) (by decide)

/-- The element `getLast?` reports is a member of the list. -/
theorem mem_of_getLast?_eq_some {α : Type} :
    ∀ (l : List α) (a : α), l.getLast? = some a → a ∈ l := by
  intro l
  induction l with
  | nil => intro a h; cases h
  | cons b rest ih =>
    intro a h
    cases rest with
    | nil =>
      rw [List.getLast?_singleton] at h
      rw [Option.some_inj] at h
      subst h
      exact List.mem_singleton_self _
    | cons c rest2 =>
      rw [List.getLast?_cons_cons] at h
      exact List.mem_cons_of_mem _ (ih a h)

/-- In a strictly ascending list the last element is the maximum. -/
theorem max?_eq_getLast?_of_sorted :
    ∀ (l : List Nat) (a : Nat), List.Pairwise (· < ·) (a :: l) →
      (a :: l).max? = (a :: l).getLast? := by
  intro l
  induction l with
  | nil => intro a _; rfl
  | cons b rest ih =>
    intro a h
    have h' : List.Pairwise (· < ·) (b :: rest) := (List.pairwise_cons.1 h).2
    have hmax := ih b h'
    cases hlast : (b :: rest).getLast? with
    | none =>
      have : (b :: rest) ≠ [] := by simp
      rw [← List.getLast?_isSome] at this
      rw [hlast] at this
      cases this
    | some g =>
      have hg : g ∈ b :: rest := mem_of_getLast?_eq_some _ _ hlast
      have hag : a < g := (List.pairwise_cons.1 h).1 g hg
      rw [List.max?_cons, List.getLast?_cons_cons, hlast]
      rw [hmax, hlast]
      simp only [Option.elim_some]
      rw [Nat.max_eq_right (Nat.le_of_lt hag)]

/-- The batches of a batch-prefixed outcome. -/
theorem batches_consBatch (b : List Nat) (r : ScanOutcome) :
    (ScanOutcome.consBatch b r).batches = b :: r.batches := by
  cases r <;> rfl

/-- Termination and cursor discipline of the scan loop over a mutating
table: with fuel `last_pk - pk + 1` the loop always reaches a stop or the
source's empty-fetch crash — never fuel exhaustion — and the cursor strictly
increases batch over batch, each new cursor being the fetched batch's own
maximum. -/
theorem scan_dynamic_go_terminates (tables : Nat → List Nat) (C last_pk : Nat)
    (hsorted : ∀ i, List.Chain' (· < ·) (tables i)) :
    ∀ (fuel i pk : Nat), last_pk - pk < fuel →
      ∃ r, scan_dynamic_go tables C last_pk fuel i pk = some r ∧
        cursorChainB pk r.batches = true := by
  intro fuel
  induction fuel with
  | zero => intro i pk h; omega
  | succ f ih =>
    intro i pk hp
    by_cases hpl : pk < last_pk
    · cases hchunk : (((tables i).filter (fun k => decide (pk < k))).take C).getLast? with
      | none =>
        refine ⟨ScanOutcome.crashed [], ?_, rfl⟩
        simp only [scan_dynamic_go, if_pos hpl, hchunk]
      | some newPk =>
        have hmem : newPk ∈ ((tables i).filter (fun k => decide (pk < k))).take C :=
          mem_of_getLast?_eq_some _ _ hchunk
        have hgt : pk < newPk := by
          have hmem' := List.take_subset C _ hmem
          have := (List.mem_filter.1 hmem').2
          simpa using this
        have hpair : List.Pairwise (· < ·)
            (((tables i).filter (fun k => decide (pk < k))).take C) :=
          List.Pairwise.sublist (List.take_sublist C _)
            (List.Pairwise.filter _ ((List.chain'_iff_pairwise).1 (hsorted i)))
        have hmax : (((tables i).filter (fun k => decide (pk < k))).take C).max? =
            some newPk := by
          cases hl : ((tables i).filter (fun k => decide (pk < k))).take C with
          | nil =>
            rw [hl] at hchunk
            cases hchunk
          | cons x xs =>
            rw [hl] at hchunk hpair
            rw [max?_eq_getLast?_of_sorted xs x hpair, hchunk]
        rcases ih (i + 1) newPk (by omega) with ⟨r, hgo, hchain⟩
        refine ⟨ScanOutcome.consBatch
          (((tables i).filter (fun k => decide (pk < k))).take C) r, ?_, ?_⟩
        · simp only [scan_dynamic_go, if_pos hpl, hchunk, hgo, Option.map_some']
        · rw [batches_consBatch, cursorChainB, hchunk]
          simp only [Bool.and_eq_true, decide_eq_true_eq]
          exact ⟨⟨hgt, hmax⟩, hchain⟩
    · refine ⟨ScanOutcome.done [], ?_, rfl⟩
      simp only [scan_dynamic_go, if_neg hpl]

/-- C8: over any per-fetch table contents (rows may be deleted or inserted
between fetches) with each fetch returning keys in ascending order, the scan
terminates — the fuel `last_pk + 1` is never exhausted — and after every
yielded batch the low-water mark is exactly the fetched batch's own maximum
key, strictly above the previous cursor, so the cursor strictly increases
and no infinite loop is possible. -/
theorem C8_scan_low_water_mark_from_fetched_batch (tables : Nat → List Nat)
    (C : Nat) (hsorted : ∀ i, List.Chain' (· < ·) (tables i)) :
    ∃ r, scan_dynamic tables C = some r ∧ cursorChainB 0 r.batches = true := by
  cases hlast : (order_by_pk (tables 0)).getLast? with
  | none =>
    refine ⟨ScanOutcome.done [], ?_, rfl⟩
    rw [scan_dynamic, hlast]
  | some last_pk =>
    rcases scan_dynamic_go_terminates tables C last_pk hsorted
      (last_pk + 1) 0 0 (by omega) with ⟨r, hgo, hchain⟩
    refine ⟨r, ?_, hchain⟩
    rw [scan_dynamic, hlast]
    exact hgo

/-- Witness for C8: keys 3 and 4 are deleted between the first and second
fetch; the scan still terminates with strictly increasing cursors. -/
theorem C8_scan_witness :
    ∃ r, scan_dynamic
        (fun i => if i = 0 then [1, 2, 3, 4, 5, 6] else [5, 6]) 2 = some r ∧
      cursorChainB 0 r.batches = true :=
  C8_scan_low_water_mark_from_fetched_batch
    (fun i => if i = 0 then [1, 2, 3, 4, 5, 6] else [5, 6]) 2
    (by
      intro i
      by_cases hi : i = 0
      · rw [hi]
        simp only [if_pos rfl]
        exact List.Pairwise.chain' (by decide)
      · simp only [if_neg hi]
        exact List.Pairwise.chain' (by decide))

/-- C1 (code bug, evaluated at the failing input): rebuilding a one-row
table binds the write alias to the fresh physical index first, but the scan
loop's very first batch dies inside the stale `ESQuerySetMixin.reindex_into_es`
— it dereferences `es_cached_fields`, which `ESBoundModel` classes do not
define, raising `AttributeError` outside any handler. No batch is ever
bulk-upserted into the new physical index (no bulk request is issued at
all), the new index stays empty, the read alias is never rebound, and the
only alias mutation performed is the initial write-alias bind. The claim's
population and cutover description therefore never happens on this code. -/
theorem C1_rebuild_aborts_before_any_bulk_upsert :
    (rebuild_es_index fixture_author_cfg "app-author-new" fixture_author_db
        fixture_author_st true).1 = Except.error PyError.attributeError ∧
    ((rebuild_es_index fixture_author_cfg "app-author-new" fixture_author_db
        fixture_author_st true).2.1).aliases "app-author-write" =
      some ["app-author-new"] ∧
    ((rebuild_es_index fixture_author_cfg "app-author-new" fixture_author_db
        fixture_author_st true).2.1).aliases "app-author-read" =
      some ["app-author-old"] ∧
    ((rebuild_es_index fixture_author_cfg "app-author-new" fixture_author_db
        fixture_author_st true).2.1).indices "app-author-new" = some [] ∧
    ((rebuild_es_index fixture_author_cfg "app-author-new" fixture_author_db
        fixture_author_st true).2.2).filter ESEvent.isBulkIndex = [] ∧
    ((rebuild_es_index fixture_author_cfg "app-author-new" fixture_author_db
        fixture_author_st true).2.2).filter ESEvent.isAliasMutation =
      [ESEvent.updateAliases
        [AliasAction.remove "app-author-old" "app-author-write",
         AliasAction.add "app-author-new" "app-author-write"]] ∧
    fixture_author_db ≠ [] := by
  refine ⟨rfl, rfl, rfl, rfl, rfl, rfl, by simp [fixture_author_db]⟩
